import Mathlib

/-!
# sumomaths: the Bluetooth link of `main.js`

A shallow embedding of `src/main.js`: the line framing of `send` and
`handleCharacteristicValueChanged`, the dispatch of `receive`, and the caches
(`deviceCache`, `characteristicCache`, `readBuffer`) with the functions that
change them.

JavaScript strings are sequences of UTF-16 code units; `length`, the regular
expression of `send` and `trim` all work on code units, so a string is a list
of code units here.  The DOM and the Web Bluetooth platform are the
environment: what the script does to them is recorded in the state (terminal
entries, display text, alerts, pending timeouts, `writeValue` calls), and what
they do to the script arrives as an `Event`.
-/

namespace SumoMaths

/-! ## Strings -/

/-- A JavaScript string, as its UTF-16 code units (each below `0x10000`). -/
abbrev JSString := List Nat

/-- A string literal of the source (all of them are ASCII). -/
def lit (s : String) : JSString := s.toList.map Char.toNat

/-- The line feed, `'\n'`. -/
def LF : Nat := 0x0A

/-- Every element is a UTF-16 code unit. -/
def WellFormed (s : JSString) : Prop := ∀ u ∈ s, u < 0x10000

/-- Every code unit is ASCII. -/
def IsAscii (s : JSString) : Prop := ∀ u ∈ s, u < 0x80

/-- ECMAScript `LineTerminator`: LF, CR, LS (U+2028), PS (U+2029). -/
def isLineTerminator (u : Nat) : Bool :=
  u == 0x0A || u == 0x0D || u == 0x2028 || u == 0x2029

/-- ECMAScript `WhiteSpace`: TAB, VT, FF, ZWNBSP and the category Zs. -/
def isWhiteSpace (u : Nat) : Bool :=
  u == 0x09 || u == 0x0B || u == 0x0C || u == 0xFEFF ||
  u == 0x20 || u == 0xA0 || u == 0x1680 || (0x2000 ≤ u && u ≤ 0x200A) ||
  u == 0x202F || u == 0x205F || u == 0x3000

/-- What `String.prototype.trim` strips: white space and line terminators. -/
def isTrimmable (u : Nat) : Bool := isWhiteSpace u || isLineTerminator u

/-- `String.prototype.trim`. -/
def trim (s : JSString) : JSString :=
  ((s.dropWhile isTrimmable).reverse.dropWhile isTrimmable).reverse

/-- A leading (high) surrogate. -/
def isLeadSurrogate (u : Nat) : Bool := 0xD800 ≤ u && u ≤ 0xDBFF

/-- A trailing (low) surrogate. -/
def isTrailSurrogate (u : Nat) : Bool := 0xDC00 ≤ u && u ≤ 0xDFFF

/-- The string iterator behind `for (let c of value)`: it yields the code
points of the string, a surrogate pair as one two-unit string and every other
code unit (a lone surrogate too) as a one-unit string. -/
def stringIterator : JSString → List JSString
  | [] => []
  | [u] => [[u]]
  | u :: v :: rest =>
    if isLeadSurrogate u && isTrailSurrogate v then [u, v] :: stringIterator rest
    else [u] :: stringIterator (v :: rest)

/-! ## `TextEncoder` -/

/-- The scalar values of a string (conversion to a USVString): a surrogate pair
is one scalar value, a lone surrogate becomes U+FFFD. -/
def toScalarValues : JSString → List Nat
  | [] => []
  | [u] => [if isLeadSurrogate u || isTrailSurrogate u then 0xFFFD else u]
  | u :: v :: rest =>
    if isLeadSurrogate u && isTrailSurrogate v then
      (0x10000 + (u - 0xD800) * 0x400 + (v - 0xDC00)) :: toScalarValues rest
    else
      (if isLeadSurrogate u || isTrailSurrogate u then 0xFFFD else u) ::
        toScalarValues (v :: rest)

/-- The UTF-8 bytes of one scalar value. -/
def utf8Bytes (cp : Nat) : List Nat :=
  if cp < 0x80 then [cp]
  else if cp < 0x800 then [0xC0 + cp / 0x40, 0x80 + cp % 0x40]
  else if cp < 0x10000 then
    [0xE0 + cp / 0x1000, 0x80 + cp / 0x40 % 0x40, 0x80 + cp % 0x40]
  else
    [0xF0 + cp / 0x40000 % 8, 0x80 + cp / 0x1000 % 0x40,
      0x80 + cp / 0x40 % 0x40, 0x80 + cp % 0x40]

/-- The bytes `new TextEncoder().encode(data)` returns. -/
def textEncode (data : JSString) : List Nat :=
  (toScalarValues data).flatMap utf8Bytes

/-! ## `TextDecoder` -/

/-- The method `isWellFormed` of a string: no lone surrogate, every leading
surrogate is followed by a trailing one and every trailing one follows a
leading one. -/
def isWellFormedUTF16 : JSString → Bool
  | [] => true
  | [u] => !(isLeadSurrogate u || isTrailSurrogate u)
  | u :: v :: rest =>
    if isLeadSurrogate u && isTrailSurrogate v then isWellFormedUTF16 rest
    else !(isLeadSurrogate u || isTrailSurrogate u) && isWellFormedUTF16 (v :: rest)

/-- The variables of the UTF-8 decoder of the Encoding Standard. -/
structure Utf8Decoder where
  codePoint : Nat
  bytesSeen : Nat
  bytesNeeded : Nat
  lowerBoundary : Nat
  upperBoundary : Nat
deriving DecidableEq

/-- The decoder between two code points. -/
def Utf8Decoder.start : Utf8Decoder :=
  { codePoint := 0, bytesSeen := 0, bytesNeeded := 0, lowerBoundary := 0x80,
    upperBoundary := 0xBF }

/-- The decoder on a byte when no byte is needed: the code points it emits at
once (the byte itself when ASCII, U+FFFD when it cannot start a sequence) and
its variables afterwards. -/
def leadByte (b : Nat) : List Nat × Utf8Decoder :=
  if b ≤ 0x7F then ([b], Utf8Decoder.start)
  else if 0xC2 ≤ b ∧ b ≤ 0xDF then
    ([], { codePoint := b % 0x20, bytesSeen := 0, bytesNeeded := 1, lowerBoundary := 0x80,
           upperBoundary := 0xBF })
  else if 0xE0 ≤ b ∧ b ≤ 0xEF then
    ([], { codePoint := b % 0x10, bytesSeen := 0, bytesNeeded := 2,
           lowerBoundary := if b = 0xE0 then 0xA0 else 0x80,
           upperBoundary := if b = 0xED then 0x9F else 0xBF })
  else if 0xF0 ≤ b ∧ b ≤ 0xF4 then
    ([], { codePoint := b % 0x08, bytesSeen := 0, bytesNeeded := 3,
           lowerBoundary := if b = 0xF0 then 0x90 else 0x80,
           upperBoundary := if b = 0xF4 then 0x8F else 0xBF })
  else ([0xFFFD], Utf8Decoder.start)

/-- The UTF-8 decoder of the Encoding Standard, run to the end of the bytes
with errors replaced by U+FFFD: the code points it emits.  A byte outside the
boundaries ends the sequence with U+FFFD and is then read again as a first
byte; bytes missing at the end give U+FFFD. -/
def utf8Decode : Utf8Decoder → List Nat → List Nat
  | d, [] => if d.bytesNeeded ≠ 0 then [0xFFFD] else []
  | d, b :: rest =>
    if d.bytesNeeded = 0 then (leadByte b).1 ++ utf8Decode (leadByte b).2 rest
    else if b < d.lowerBoundary ∨ d.upperBoundary < b then
      0xFFFD :: ((leadByte b).1 ++ utf8Decode (leadByte b).2 rest)
    else if d.bytesSeen + 1 ≠ d.bytesNeeded then
      utf8Decode
        { codePoint := d.codePoint * 0x40 + b % 0x40, bytesSeen := d.bytesSeen + 1,
          bytesNeeded := d.bytesNeeded, lowerBoundary := 0x80, upperBoundary := 0xBF } rest
    else (d.codePoint * 0x40 + b % 0x40) :: utf8Decode Utf8Decoder.start rest

/-- The UTF-16 code units of a code point. -/
def toCodeUnits (cp : Nat) : JSString :=
  if cp < 0x10000 then [cp]
  else [0xD800 + (cp - 0x10000) / 0x400, 0xDC00 + (cp - 0x10000) % 0x400]

/-- The code points without a byte order mark in front: a fresh `TextDecoder`
(`ignoreBOM` false) drops a first code point U+FEFF. -/
def dropByteOrderMark (cps : List Nat) : List Nat :=
  if cps.head? = some 0xFEFF then cps.tail else cps

/-- The string `new TextDecoder().decode(value)` returns for the bytes
`value`. -/
def textDecode (value : List Nat) : JSString :=
  (dropByteOrderMark (utf8Decode Utf8Decoder.start value)).flatMap toCodeUnits

/-! ## The regular expression of `send` -/

/-- The atom `(.|[\r\n])` on one code unit (the expression has no `u` and no
`s` flag): `.` is any code unit that is not a line terminator, `[\r\n]` is CR
or LF. -/
def atomMatches (u : Nat) : Bool :=
  !isLineTerminator u || (u == 0x0D || u == 0x0A)

/-- The greedy quantifier `{1,n}` at the start of the input: the longest run of
at most `n` matching code units (empty when the first one does not match). -/
def greedyRun : Nat → JSString → JSString
  | 0, _ => []
  | _ + 1, [] => []
  | n + 1, u :: rest => if atomMatches u then u :: greedyRun n rest else []

/-- The search loop of `String.prototype.match` for a global expression, on
the input from `lastIndex` on: where the expression matches, the match is
collected and the search goes on behind it; where it does not, the search
moves one code unit on.  Every round consumes a code unit, so `fuel` equal to
the length of the input is enough. -/
def matchLoop : Nat → JSString → List JSString
  | 0, _ => []
  | _ + 1, [] => []
  | fuel + 1, u :: rest =>
    if greedyRun 20 (u :: rest) = [] then matchLoop fuel rest
    else
      greedyRun 20 (u :: rest) ::
        matchLoop fuel ((u :: rest).drop (greedyRun 20 (u :: rest)).length)

/-- The value of `data.match(/(.|[\r\n]){1,20}/g)`: the array of all matches,
or `null` (here `none`) when there is none. -/
def regexMatch (data : JSString) : Option (List JSString) :=
  match matchLoop data.length data with
  | [] => none
  | chunks => some chunks

/-! ## State -/

/-- A Bluetooth device object. -/
structure Device where
  id : Nat
  name : JSString
deriving DecidableEq

/-- A GATT characteristic object. -/
structure Characteristic where
  id : Nat
deriving DecidableEq

/-- A `div` appended to the terminal by `log`. -/
structure LogEntry where
  className : JSString
  textContent : JSString
deriving DecidableEq

/-- A callback registered by the `setTimeout` of `send`: it writes `chunk`
once `delay` has passed since the call of `send`. -/
structure Timer where
  delay : Nat
  chunk : JSString
deriving DecidableEq

/-- A call `characteristic.writeValue(value)`, with the outcome of the promise
it returned (`rejected` when the write failed). -/
structure WriteCall where
  characteristic : Characteristic
  data : JSString
  value : List Nat
  rejected : Bool
deriving DecidableEq

/-- A call into the Web Bluetooth platform made while connecting or
disconnecting. -/
inductive PlatformCall where
  | requestDevice
  | gattConnect (device : Device)
  | getPrimaryService
  | getCharacteristic
  | startNotifications (characteristic : Characteristic)
  | gattDisconnect (device : Device)
deriving DecidableEq

/-- The variables of the script and what it has done to its environment. -/
structure State where
  /-- The variable `deviceCache`. -/
  deviceCache : Option Device
  /-- The variable `characteristicCache`. -/
  characteristicCache : Option Characteristic
  /-- The variable `readBuffer`. -/
  readBuffer : JSString
  /-- The children of `terminalContainer`, oldest first. -/
  terminal : List LogEntry
  /-- The text of `distanceDisplay`. -/
  distanceText : JSString
  /-- The texts shown by `alert`, oldest first. -/
  alerts : List JSString
  /-- The pending timeouts, in the order they were set. -/
  timers : List Timer
  /-- The calls of `writeValue`, oldest first. -/
  writes : List WriteCall
  /-- The devices whose `gatt.connected` is true. -/
  connected : List Device
  /-- The devices with `handleDisconnection` listening. -/
  deviceListeners : List Device
  /-- The characteristics with `handleCharacteristicValueChanged` listening. -/
  valueListeners : List Characteristic
  /-- The platform calls made, oldest first. -/
  calls : List PlatformCall
deriving DecidableEq

/-- The state once the script has loaded: both caches `null`, `readBuffer`
the empty string, an empty page. -/
def initialState : State :=
  { deviceCache := none, characteristicCache := none, readBuffer := [],
    terminal := [], distanceText := [], alerts := [], timers := [],
    writes := [], connected := [], deviceListeners := [], valueListeners := [],
    calls := [] }

/-! ## The functions of `main.js` -/

/-- The function `log(data, type)`: appends a `div` with class `type` and text
`data` to the terminal. -/
def log (s : State) (data : JSString) (type : JSString) : State :=
  { s with terminal := s.terminal ++ [{ className := type, textContent := data }] }

/-- The function `receive(data)`. -/
def receive (s : State) (data : JSString) : State :=
  let s := log s data (lit "in")
  if data = lit "GAME OVER" then
    { s with alerts := s.alerts ++ [data] }
  else
    { s with distanceText := data }

/-- The body of the loop of `handleCharacteristicValueChanged`, for one `c`. -/
def handleCodePoint (s : State) (c : JSString) : State :=
  if c = [LF] then
    let data := trim s.readBuffer
    let s := { s with readBuffer := [] }
    if data ≠ [] then receive s data else s
  else
    { s with readBuffer := s.readBuffer ++ c }

/-- The loop of `handleCharacteristicValueChanged(event)`: the function from
the decoded text `value` of the notification on. -/
def handleCharacteristicValueChanged (s : State) (value : JSString) : State :=
  (stringIterator value).foldl handleCodePoint s

/-- The function `handleCharacteristicValueChanged(event)` as a whole, from the
bytes `event.target.value` of the notification on: they are decoded by a
fresh `TextDecoder`, then the loop runs on the text. -/
def handleCharacteristicValueChangedEvent (s : State) (value : List Nat) : State :=
  handleCharacteristicValueChanged s (textDecode value)

/-- The function `writeToCharacteristic(characteristic, data)`; `rejects` tells
whether the promise of `writeValue` is rejected.  The promise is dropped, so
the outcome only shows in the record of the call.  On `null` the property
access throws (`none`). -/
def writeToCharacteristic (s : State) (characteristic : Option Characteristic)
    (data : JSString) (rejects : Bool) : Option State :=
  match characteristic with
  | none => none
  | some ch =>
    some { s with writes := s.writes ++
      [{ characteristic := ch, data := data, value := textEncode data,
         rejected := rejects }] }

/-- The function `send(data)`; `rejects` is the outcome of the write it makes
itself.  `none` is an exception thrown out of `send`. -/
def send (s : State) (data : JSString) (rejects : Bool) : Option State :=
  if data = [] ∨ s.characteristicCache = none then some s
  else
    let data := data ++ [LF]
    if data.length > 20 then
      match regexMatch data with
      | none => none
      | some [] => none
      | some (chunk0 :: rest) =>
        (writeToCharacteristic s s.characteristicCache chunk0 rejects).map fun s1 =>
          let s2 := { s1 with timers := s1.timers ++
            (rest.enumFrom 1).map fun p => { delay := p.1 * 100, chunk := p.2 } }
          log s2 data (lit "out")
    else
      (writeToCharacteristic s s.characteristicCache data rejects).map fun s1 =>
        log s1 data (lit "out")

/-- The callback of a timeout of `send`, when it fires: it is no longer
pending, and it writes its chunk to the characteristic cached at that moment.
An exception in the callback ends the callback only. -/
def timerCallback (s : State) (t : Timer) (rejects : Bool) : State :=
  let s := { s with timers := s.timers.erase t }
  (writeToCharacteristic s s.characteristicCache t.chunk rejects).getD s

/-- Fires the timeouts `ts` in order; `rejects i` is the outcome of the write
of chunk `i`. -/
def fireTimers (rejects : Nat → Bool) : State → Nat → List Timer → State
  | s, _, [] => s
  | s, i, t :: ts => fireTimers rejects (timerCallback s t (rejects i)) (i + 1) ts

/-- A call of `send` followed by the firing of the timeouts it has set, with
nothing else happening in between; `rejects i` is the outcome of the write of
chunk `i`. -/
def sendAndDrain (s : State) (data : JSString) (rejects : Nat → Bool) : Option State :=
  (send s data (rejects 0)).map fun s1 =>
    fireTimers rejects s1 1 (s1.timers.drop s.timers.length)

/-- The chunks written by a call of `send` and its timeouts, in the order of
the writes: the `data` arguments of the `writeToCharacteristic` calls. -/
def sentChunks (s : State) (data : JSString) (rejects : Nat → Bool) : List JSString :=
  match sendAndDrain s data rejects with
  | none => []
  | some s1 => (s1.writes.drop s.writes.length).map WriteCall.data

/-- The values handed to `writeValue` by a call of `send` and its timeouts, in
the order of the writes: the bytes that go over the link. -/
def sentValues (s : State) (data : JSString) (rejects : Nat → Bool) : List (List Nat) :=
  match sendAndDrain s data rejects with
  | none => []
  | some s1 => (s1.writes.drop s.writes.length).map WriteCall.value

/-- The function `startNotifications(characteristic)`, up to the platform
call; its promise is settled by a later event. -/
def startNotifications (s : State) (characteristic : Characteristic) : State :=
  let s := log s (lit "Starting notifications...") []
  { s with calls := s.calls ++ [PlatformCall.startNotifications characteristic] }

/-- The callback of `startNotifications`, once the platform has started the
notifications: `handleCharacteristicValueChanged` listens on the
characteristic (adding a listener twice adds it once). -/
def notificationsStarted (s : State) (characteristic : Characteristic) : State :=
  let s := log s (lit "Notifications started") []
  { s with valueListeners :=
      if characteristic ∈ s.valueListeners then s.valueListeners
      else s.valueListeners ++ [characteristic] }

/-- The function `connectDeviceAndCacheCharacteristic(device)`, up to its first
platform call: with the device connected and a characteristic cached it
resolves at once with the cached characteristic (`some`), otherwise it logs,
calls `gatt.connect()` and its promise stays pending (`none`). -/
def connectDeviceAndCacheCharacteristic (s : State) (device : Device) :
    State × Option Characteristic :=
  if device ∈ s.connected ∧ s.characteristicCache ≠ none then
    (s, s.characteristicCache)
  else
    let s := log s (lit "Connecting to GATT server...") []
    ({ s with calls := s.calls ++ [PlatformCall.gattConnect device] }, none)

/-- The chain `connectDeviceAndCacheCharacteristic(device).then(characteristic
=> startNotifications(characteristic))` of `connect` and of
`handleDisconnection`, as far as it runs without the platform. -/
def connectThenStart (s : State) (device : Device) : State :=
  match connectDeviceAndCacheCharacteristic s device with
  | (s1, some characteristic) => startNotifications s1 characteristic
  | (s1, none) => s1

/-- The function `requestBluetoothDevice()`, up to the platform call. -/
def requestBluetoothDevice (s : State) : State :=
  let s := log s (lit "Requesting bluetooth device...") []
  { s with calls := s.calls ++ [PlatformCall.requestDevice] }

/-- The function `connect()`, as far as it runs without the platform. -/
def connect (s : State) : State :=
  match s.deviceCache with
  | some device => connectThenStart s device
  | none => requestBluetoothDevice s

/-- The callback of `requestDevice` in `requestBluetoothDevice`, followed by
the rest of the chain of `connect`. -/
def deviceSelected (s : State) (device : Device) : State :=
  let s := log s ([0x22] ++ device.name ++ lit "\x22 bluetooth device selected") []
  let s := { s with
    deviceCache := some device
    deviceListeners :=
      if device ∈ s.deviceListeners then s.deviceListeners
      else s.deviceListeners ++ [device] }
  connectThenStart s device

/-- The callback of `gatt.connect()` in `connectDeviceAndCacheCharacteristic`;
the platform has connected the device. -/
def serverConnected (s : State) (device : Device) : State :=
  let s := { s with
    connected := if device ∈ s.connected then s.connected else s.connected ++ [device] }
  let s := log s (lit "GATT server connected, getting service...") []
  { s with calls := s.calls ++ [PlatformCall.getPrimaryService] }

/-- The callback of `getPrimaryService` in
`connectDeviceAndCacheCharacteristic`. -/
def serviceFound (s : State) : State :=
  let s := log s (lit "Service found, getting characteristic...") []
  { s with calls := s.calls ++ [PlatformCall.getCharacteristic] }

/-- The callback of `getCharacteristic` in
`connectDeviceAndCacheCharacteristic`, followed by the `startNotifications` of
the chain. -/
def characteristicFound (s : State) (characteristic : Characteristic) : State :=
  let s := log s (lit "Characteristic found") []
  let s := { s with characteristicCache := some characteristic }
  startNotifications s characteristic

/-- The function `handleDisconnection(event)`, for `event.target` the
device. -/
def handleDisconnection (s : State) (device : Device) : State :=
  let s := log s ([0x22] ++ device.name ++
    lit "\x22 bluetooth device disconnected, trying to reconnect...") []
  connectThenStart s device

/-- The block `if (deviceCache) { ... }` of `disconnect()`. -/
def disconnectDevice (s : State) : State :=
  match s.deviceCache with
  | some device =>
    let s := log s (lit "Disconnecting from \x22" ++ device.name ++
      lit "\x22 bluetooth device...") []
    let s := { s with deviceListeners := s.deviceListeners.filter (· ≠ device) }
    if device ∈ s.connected then
      let s := { s with
        connected := s.connected.filter (· ≠ device)
        calls := s.calls ++ [PlatformCall.gattDisconnect device] }
      log s ([0x22] ++ device.name ++ lit "\x22 bluetooth device disconnected") []
    else
      log s ([0x22] ++ device.name ++
        lit "\x22 bluetooth device is already disconnected") []
  | none => s

/-- The block `if (characteristicCache) { ... }` of `disconnect()`. -/
def releaseCharacteristic (s : State) : State :=
  match s.characteristicCache with
  | some characteristic =>
    { s with
      valueListeners := s.valueListeners.filter (· ≠ characteristic)
      characteristicCache := none }
  | none => s

/-- The function `disconnect()`: its two blocks, then `deviceCache = null`. -/
def disconnect (s : State) : State :=
  { releaseCharacteristic (disconnectDevice s) with deviceCache := none }

/-! ## Events -/

/-- What the page and the platform do to the script.  Each event runs one
function or callback of the script to its end. -/
inductive Event where
  /-- A click on the Connect button. -/
  | connectClicked
  /-- A click on the Disconnect button. -/
  | disconnectClicked
  /-- The promise of `requestDevice` is fulfilled with `device`. -/
  | deviceSelected (device : Device)
  /-- The promise of `gatt.connect()` is fulfilled. -/
  | serverConnected (device : Device)
  /-- The promise of `getPrimaryService` is fulfilled. -/
  | serviceFound
  /-- The promise of `getCharacteristic` is fulfilled. -/
  | characteristicFound (characteristic : Characteristic)
  /-- The promise of `startNotifications` is fulfilled. -/
  | notificationsStarted (characteristic : Characteristic)
  /-- A promise of a chain is rejected with `error`: `catch(error => log(error))`. -/
  | chainRejected (error : JSString)
  /-- The event `gattserverdisconnected` on `device`. -/
  | gattServerDisconnected (device : Device)
  /-- The event `characteristicvaluechanged` on `characteristic`, with the
  decoded text of its value. -/
  | valueChanged (characteristic : Characteristic) (value : JSString)
  /-- A call `send(data)` by a key handler. -/
  | sendCalled (data : JSString) (rejects : Bool)
  /-- A timeout of `send` fires. -/
  | timeout (timer : Timer) (rejects : Bool)
deriving DecidableEq

/-- The effect of one event. -/
def step (s : State) : Event → State
  | Event.connectClicked => connect s
  | Event.disconnectClicked => disconnect s
  | Event.deviceSelected device => deviceSelected s device
  | Event.serverConnected device => serverConnected s device
  | Event.serviceFound => serviceFound s
  | Event.characteristicFound characteristic => characteristicFound s characteristic
  | Event.notificationsStarted characteristic => notificationsStarted s characteristic
  | Event.chainRejected error => log s error []
  | Event.gattServerDisconnected device =>
    let s := { s with connected := s.connected.filter (· ≠ device) }
    if device ∈ s.deviceListeners then handleDisconnection s device else s
  | Event.valueChanged characteristic value =>
    if characteristic ∈ s.valueListeners then handleCharacteristicValueChanged s value
    else s
  | Event.sendCalled data rejects => (send s data rejects).getD s
  | Event.timeout timer rejects =>
    if timer ∈ s.timers then timerCallback s timer rejects else s

/-- The state after a sequence of events. -/
def run (s : State) (events : List Event) : State := events.foldl step s

/-- The chunks `send` makes of `data`: the one string `data + '\n'` when that
is at most 20 long, the matches of the regular expression otherwise (none when
`match` returns `null`). -/
def frameChunks (data : JSString) : List JSString :=
  if (data ++ [LF]).length > 20 then (regexMatch (data ++ [LF])).getD []
  else [data ++ [LF]]

/-! ## Concrete states -/

/-- A state with a characteristic cached and nothing else set. -/
def cachedState : State :=
  { initialState with characteristicCache := some { id := 1 } }

/-- A device as the device chooser returns it. -/
def sumoDevice : Device := { id := 7, name := lit "HM-10" }

/-- The events of a connection that succeeds: click, device chosen, server
connected, service and characteristic found, notifications started. -/
def connectEvents (characteristic : Characteristic) : List Event :=
  [Event.connectClicked, Event.deviceSelected sumoDevice, Event.serverConnected sumoDevice,
    Event.serviceFound, Event.characteristicFound characteristic,
    Event.notificationsStarted characteristic]

/-- The state after a first connection to `sumoDevice`. -/
def connectedState : State := run initialState (connectEvents { id := 1 })

/-! ## The reference decoder of the specification -/

/-- The decoder as the specification words it: the text is split at every
line feed; every piece but the last is a terminated line and yields its
trimmed content as a message unless that is empty; the last piece is the
unterminated tail that stays in the buffer. -/
def referenceDecode (text : JSString) : List JSString × JSString :=
  (((text.splitOn LF).dropLast.map trim).filter (· ≠ []),
    ((text.splitOn LF).getLast?).getD [])

/-! ## The inbound side: `handleCharacteristicValueChanged` -/

theorem lead_ne_LF (u : Nat) (h : isLeadSurrogate u = true) : u ≠ LF := by
  intro hu
  subst hu
  simp [isLeadSurrogate, LF] at h

theorem trail_ne_LF (u : Nat) (h : isTrailSurrogate u = true) : u ≠ LF := by
  intro hu
  subst hu
  simp [isTrailSurrogate, LF] at h

theorem handleCodePoint_pair (s : State) (u v : Nat) :
    handleCodePoint s [u, v] = { s with readBuffer := s.readBuffer ++ [u, v] } := by
  simp [handleCodePoint]

theorem handleCodePoint_LF (s : State) :
    handleCodePoint s [LF] =
      if trim s.readBuffer ≠ [] then receive { s with readBuffer := [] } (trim s.readBuffer)
      else { s with readBuffer := [] } := by
  simp [handleCodePoint]

theorem handleCodePoint_ne (s : State) (u : Nat) (h : u ≠ LF) :
    handleCodePoint s [u] = { s with readBuffer := s.readBuffer ++ [u] } := by
  simp [handleCodePoint, h]

/-- Iterating by code points or by code units is the same to the loop: a
surrogate pair holds no line feed and is appended whole either way. -/
theorem handle_eq_units (v : JSString) : ∀ s : State,
    handleCharacteristicValueChanged s v = v.foldl (fun s u => handleCodePoint s [u]) s := by
  induction v using stringIterator.induct with
  | case1 => intro s; rfl
  | case2 u => intro s; rfl
  | case3 u v rest h ih =>
    intro s
    have ih2 := ih { s with readBuffer := s.readBuffer ++ [u, v] }
    simp only [handleCharacteristicValueChanged] at ih2 ⊢
    simp only [Bool.and_eq_true] at h
    simp only [stringIterator, h.1, h.2, Bool.and_self, if_true, List.foldl_cons,
      handleCodePoint_pair, ih2, handleCodePoint_ne _ u (lead_ne_LF u h.1)]
    rw [handleCodePoint_ne _ v (trail_ne_LF v h.2)]
    simp
  | case4 u v rest h ih =>
    intro s
    have ih2 := ih (handleCodePoint s [u])
    simp only [handleCharacteristicValueChanged] at ih2 ⊢
    simp only [stringIterator, h, List.foldl_cons]
    exact ih2

theorem handle_append (s : State) (a b : JSString) :
    handleCharacteristicValueChanged s (a ++ b) =
      handleCharacteristicValueChanged (handleCharacteristicValueChanged s a) b := by
  simp [handle_eq_units, List.foldl_append]

theorem handle_nil (s : State) : handleCharacteristicValueChanged s [] = s := rfl

theorem handle_cons (s : State) (u : Nat) (v : JSString) :
    handleCharacteristicValueChanged s (u :: v) =
      handleCharacteristicValueChanged (handleCodePoint s [u]) v := by
  simp [handle_eq_units]

theorem receive_readBuffer (s : State) (d : JSString) :
    (receive s d).readBuffer = s.readBuffer := by
  unfold receive log
  split <;> rfl

theorem receive_setBuffer (s : State) (d b : JSString) :
    receive { s with readBuffer := b } d = { receive s d with readBuffer := b } := by
  unfold receive log
  split <;> rfl

theorem foldl_receive_setBuffer (ms : List JSString) : ∀ (s : State) (b : JSString),
    ms.foldl receive { s with readBuffer := b } = { ms.foldl receive s with readBuffer := b } := by
  induction ms with
  | nil => intro s b; rfl
  | cons d ms ih =>
    intro s b
    rw [List.foldl_cons, List.foldl_cons, receive_setBuffer, ih]

theorem foldl_receive_terminal (ms : List JSString) : ∀ s : State,
    (ms.foldl receive s).terminal =
      s.terminal ++ ms.map fun d => { className := lit "in", textContent := d } := by
  induction ms with
  | nil => intro s; simp
  | cons d ms ih =>
    intro s
    have h : (receive s d).terminal =
        s.terminal ++ [{ className := lit "in", textContent := d }] := by
      unfold receive log
      split <;> rfl
    rw [List.foldl_cons, ih, h, List.map_cons, List.append_assoc]
    rfl

/-! ### The reference decoder -/

theorem splitOn_ne_nil (text : JSString) : text.splitOn LF ≠ [] :=
  List.splitOnP_ne_nil _ _

theorem splitOn_single (b : JSString) (hb : LF ∉ b) : b.splitOn LF = [b] := by
  apply List.splitOnP_eq_single
  intro x hx hp
  rw [beq_iff_eq] at hp
  exact hb (hp ▸ hx)

theorem splitOn_line (b v : JSString) (hb : LF ∉ b) :
    (b ++ LF :: v).splitOn LF = b :: v.splitOn LF := by
  apply List.splitOnP_first
  · intro x hx hp
    rw [beq_iff_eq] at hp
    exact hb (hp ▸ hx)
  · simp

theorem referenceDecode_single (b : JSString) (hb : LF ∉ b) :
    referenceDecode b = ([], b) := by
  simp [referenceDecode, splitOn_single b hb]

theorem referenceDecode_line (b v : JSString) (hb : LF ∉ b) :
    referenceDecode (b ++ LF :: v) =
      ((if trim b ≠ [] then [trim b] else []) ++ (referenceDecode v).1,
        (referenceDecode v).2) := by
  obtain ⟨p, ps, hps⟩ := List.exists_cons_of_ne_nil (splitOn_ne_nil v)
  simp only [referenceDecode, splitOn_line b v hb, hps]
  rw [List.dropLast_cons_of_ne_nil (List.cons_ne_nil p ps), List.getLast?_cons_cons,
    List.map_cons, List.filter_cons]
  by_cases h : trim b = [] <;> simp [h]

/-- The pieces of the split hold no line feed. -/
theorem splitOn_pieces (text : JSString) : ∀ piece ∈ text.splitOn LF, LF ∉ piece := by
  induction text with
  | nil => simp
  | cons u rest ih =>
    obtain ⟨p, ps, hps⟩ := List.exists_cons_of_ne_nil (splitOn_ne_nil rest)
    have hps2 : List.splitOnP (fun x => x == LF) rest = p :: ps := hps
    rw [hps] at ih
    intro piece hpiece
    simp only [List.splitOn, List.splitOnP_cons, hps2] at hpiece
    by_cases hu : u = LF
    · simp only [hu, beq_self_eq_true, if_true, List.mem_cons] at hpiece
      rcases hpiece with h | h
      · simp [h]
      · exact ih piece (by simpa using h)
    · have hu2 : (u == LF) = false := by simpa using hu
      simp only [hu2, Bool.false_eq_true, if_false, List.modifyHead_cons,
        List.mem_cons] at hpiece
      rcases hpiece with h | h
      · subst h
        intro hmem
        rcases List.mem_cons.1 hmem with h1 | h1
        · exact hu h1.symm
        · exact ih p (by simp) h1
      · exact ih piece (by simp [h])

theorem trim_eq_nil (b : JSString) (hb : ∀ u ∈ b, isTrimmable u = true) : trim b = [] := by
  have h : b.dropWhile isTrimmable = [] := List.dropWhile_eq_nil_iff.2 hb
  simp [trim, h]

/-- A run of white space and line terminators ended by a line feed, arriving
on an empty or blank buffer, calls nothing and empties the buffer. -/
theorem handle_blank (w : JSString) (hw : ∀ u ∈ w, isTrimmable u = true) : ∀ s : State,
    (∀ u ∈ s.readBuffer, isTrimmable u = true) →
    handleCharacteristicValueChanged s (w ++ [LF]) = { s with readBuffer := [] } := by
  induction w with
  | nil =>
    intro s hs
    rw [List.nil_append, handle_cons, handle_nil, handleCodePoint_LF]
    simp [trim_eq_nil _ hs]
  | cons u w ih =>
    intro s hs
    have hw2 : ∀ x ∈ w, isTrimmable x = true := fun x hx => hw x (List.mem_cons_of_mem _ hx)
    rw [List.cons_append, handle_cons]
    by_cases hu : u = LF
    · subst hu
      rw [handleCodePoint_LF]
      simp only [trim_eq_nil _ hs, ne_eq, not_true_eq_false, if_false]
      rw [ih hw2 _ (by simp)]
    · rw [handleCodePoint_ne _ _ hu, ih hw2]
      intro x hx
      rcases List.mem_append.1 hx with h | h
      · exact hs x h
      · rw [List.mem_singleton.1 h]
        exact hw u (List.mem_cons_self _ _)

theorem handle_eq_reference (v : JSString) : ∀ s : State, LF ∉ s.readBuffer →
    handleCharacteristicValueChanged s v =
      { (referenceDecode (s.readBuffer ++ v)).1.foldl receive s with
        readBuffer := (referenceDecode (s.readBuffer ++ v)).2 } := by
  induction v with
  | nil =>
    intro s hs
    rw [List.append_nil, referenceDecode_single _ hs]
    rfl
  | cons u v ih =>
    intro s hs
    rw [handle_cons]
    by_cases hu : u = LF
    · subst hu
      rw [referenceDecode_line _ _ hs, handleCodePoint_LF]
      by_cases ht : trim s.readBuffer = []
      · simp only [ht, ne_eq, not_true_eq_false, if_false, List.nil_append]
        rw [ih _ (by simp), foldl_receive_setBuffer]
        rfl
      · simp only [ht, ne_eq, not_false_eq_true, if_true, List.singleton_append,
          List.foldl_cons]
        rw [ih _ (by simp [receive_readBuffer]), receive_readBuffer, receive_setBuffer,
          foldl_receive_setBuffer]
        rfl
    · rw [handleCodePoint_ne _ _ hu, ih _ (by
        intro h
        rcases List.mem_append.1 h with h1 | h1
        · exact hs h1
        · exact hu (List.mem_singleton.1 h1).symm)]
      rw [foldl_receive_setBuffer]
      simp

/-! ## The outbound side: the regular expression -/

theorem greedyRun_length_le (n : Nat) : ∀ s : JSString, (greedyRun n s).length ≤ n := by
  induction n with
  | zero => intro s; simp [greedyRun]
  | succ n ih =>
    intro s
    cases s with
    | nil => simp [greedyRun]
    | cons u rest =>
      by_cases h : atomMatches u = true
      · simpa [greedyRun, h] using ih rest
      · simp [greedyRun, h]

theorem greedyRun_mem (n : Nat) : ∀ s : JSString, ∀ u ∈ greedyRun n s, u ∈ s := by
  induction n with
  | zero => intro s u hu; simp [greedyRun] at hu
  | succ n ih =>
    intro s u hu
    cases s with
    | nil => simp [greedyRun] at hu
    | cons v rest =>
      by_cases h : atomMatches v = true
      · simp only [greedyRun, h, if_true, List.mem_cons] at hu
        rcases hu with h1 | h1
        · simp [h1]
        · exact List.mem_cons_of_mem _ (ih rest u h1)
      · simp [greedyRun, h] at hu

theorem greedyRun_eq_take (n : Nat) : ∀ s : JSString, (∀ u ∈ s, atomMatches u = true) →
    greedyRun n s = s.take n := by
  induction n with
  | zero => intro s _; simp [greedyRun]
  | succ n ih =>
    intro s hs
    cases s with
    | nil => simp [greedyRun]
    | cons u rest =>
      have hu := hs u (List.mem_cons_self _ _)
      simp [greedyRun, hu, ih rest (fun x hx => hs x (List.mem_cons_of_mem _ hx))]

theorem greedyRun_eq_nil_iff (n : Nat) (u : Nat) (rest : JSString) :
    greedyRun (n + 1) (u :: rest) = [] ↔ atomMatches u = false := by
  by_cases h : atomMatches u = true <;> simp [greedyRun, h]

/-- The fuel of `matchLoop` is enough as soon as it reaches the length of the
input: more fuel changes nothing. -/
theorem matchLoop_fuel (fuel1 : Nat) : ∀ (fuel2 : Nat) (s : JSString),
    s.length ≤ fuel1 → s.length ≤ fuel2 → matchLoop fuel1 s = matchLoop fuel2 s := by
  induction fuel1 with
  | zero =>
    intro fuel2 s h1 _
    have hs : s = [] := List.length_eq_zero.1 (Nat.le_zero.1 h1)
    subst hs
    cases fuel2 <;> rfl
  | succ fuel1 ih =>
    intro fuel2 s h1 h2
    cases s with
    | nil => cases fuel2 <;> rfl
    | cons u rest =>
      cases fuel2 with
      | zero => simp at h2
      | succ fuel2 =>
        simp only [List.length_cons, Nat.add_le_add_iff_right] at h1 h2
        simp only [matchLoop]
        by_cases h : greedyRun 20 (u :: rest) = []
        · simp only [h, if_true]
          exact ih fuel2 rest h1 h2
        · simp only [h, if_false]
          have hpos : 0 < (greedyRun 20 (u :: rest)).length := List.length_pos.2 h
          have hlen : ((u :: rest).drop (greedyRun 20 (u :: rest)).length).length ≤
              rest.length := by
            simp only [List.length_drop, List.length_cons]
            omega
          rw [ih fuel2 _ (le_trans hlen h1) (le_trans hlen h2)]

theorem matchLoop_chunks (fuel : Nat) : ∀ s : JSString, ∀ c ∈ matchLoop fuel s,
    c ≠ [] ∧ c.length ≤ 20 ∧ ∀ u ∈ c, u ∈ s := by
  induction fuel with
  | zero => intro s c hc; simp [matchLoop] at hc
  | succ fuel ih =>
    intro s c hc
    cases s with
    | nil => simp [matchLoop] at hc
    | cons u rest =>
      simp only [matchLoop] at hc
      by_cases h : greedyRun 20 (u :: rest) = []
      · simp only [h, if_true] at hc
        obtain ⟨h1, h2, h3⟩ := ih rest c hc
        exact ⟨h1, h2, fun x hx => List.mem_cons_of_mem _ (h3 x hx)⟩
      · simp only [h, if_false, List.mem_cons] at hc
        rcases hc with hc | hc
        · subst hc
          exact ⟨h, greedyRun_length_le 20 _, greedyRun_mem 20 _⟩
        · obtain ⟨h1, h2, h3⟩ := ih _ c hc
          exact ⟨h1, h2, fun x hx => List.mem_of_mem_drop (h3 x hx)⟩

theorem matchLoop_ne_nil (fuel : Nat) : ∀ s : JSString, s.length ≤ fuel →
    (∃ u ∈ s, atomMatches u = true) → matchLoop fuel s ≠ [] := by
  induction fuel with
  | zero =>
    intro s h1 h2
    have hs : s = [] := List.length_eq_zero.1 (Nat.le_zero.1 h1)
    subst hs
    simp at h2
  | succ fuel ih =>
    intro s h1 h2
    cases s with
    | nil => simp at h2
    | cons u rest =>
      simp only [List.length_cons, Nat.add_le_add_iff_right] at h1
      simp only [matchLoop]
      by_cases h : greedyRun 20 (u :: rest) = []
      · simp only [h, if_true]
        apply ih rest h1
        obtain ⟨x, hx, hx2⟩ := h2
        rcases List.mem_cons.1 hx with h3 | h3
        · rw [greedyRun_eq_nil_iff] at h
          rw [h3, h] at hx2
          exact absurd hx2 (by simp)
        · exact ⟨x, h3, hx2⟩
      · simp [h]

/-- Where every code unit matches the atom, the matches are the input cut
every 20 code units: joined, they give the input back. -/
theorem matchLoop_join (fuel : Nat) : ∀ s : JSString, s.length ≤ fuel →
    (∀ u ∈ s, atomMatches u = true) → (matchLoop fuel s).flatten = s := by
  induction fuel with
  | zero =>
    intro s h1 _
    have hs : s = [] := List.length_eq_zero.1 (Nat.le_zero.1 h1)
    subst hs
    rfl
  | succ fuel ih =>
    intro s h1 h2
    cases s with
    | nil => rfl
    | cons u rest =>
      simp only [List.length_cons, Nat.add_le_add_iff_right] at h1
      have hrun : greedyRun 20 (u :: rest) = (u :: rest).take 20 :=
        greedyRun_eq_take 20 _ h2
      have hne : greedyRun 20 (u :: rest) ≠ [] := by simp [hrun]
      simp only [matchLoop, hne, if_false, List.flatten_cons]
      rw [ih]
      · rw [hrun, List.length_take]
        rcases Nat.le_total 20 (u :: rest).length with h | h
        · rw [inf_of_le_left h, List.take_append_drop]
        · rw [inf_of_le_right h, List.drop_length, List.append_nil, List.take_of_length_le h]
      · have hpos : 0 < (greedyRun 20 (u :: rest)).length := List.length_pos.2 hne
        simp only [List.length_drop, List.length_cons]
        omega
      · intro x hx
        exact h2 x (List.mem_of_mem_drop hx)

/-! ## The outbound side: `send` -/

theorem atomMatches_of_ne (u : Nat) (h : u ≠ 0x2028 ∧ u ≠ 0x2029) : atomMatches u = true := by
  by_cases h1 : u = 0x0A
  · subst h1; rfl
  · by_cases h2 : u = 0x0D
    · subst h2; rfl
    · simp [atomMatches, isLineTerminator, h1, h2, h.1, h.2]

theorem regexMatch_eq (data : JSString) (c0 : JSString) (rest : List JSString)
    (h : matchLoop data.length data = c0 :: rest) : regexMatch data = some (c0 :: rest) := by
  simp [regexMatch, h]

theorem regexMatch_getD (data : JSString) :
    (regexMatch data).getD [] = matchLoop data.length data := by
  unfold regexMatch
  split
  · next h => simp [h]
  · simp

theorem frameChunks_ne_nil (m : JSString) : frameChunks m ≠ [] := by
  unfold frameChunks
  split
  · rw [regexMatch_getD]
    exact matchLoop_ne_nil _ _ (le_refl _) ⟨LF, by simp, rfl⟩
  · simp

theorem frameChunks_chunks (m : JSString) : ∀ c ∈ frameChunks m,
    c ≠ [] ∧ c.length ≤ 20 ∧ ∀ u ∈ c, u ∈ m ++ [LF] := by
  intro c hc
  unfold frameChunks at hc
  split at hc
  · rw [regexMatch_getD] at hc
    exact matchLoop_chunks _ _ c hc
  · next h =>
    rw [List.mem_singleton] at hc
    subst hc
    exact ⟨by simp, by omega, fun u hu => hu⟩

theorem frameChunks_flatten (m : JSString)
    (h : m.length < 20 ∨ ∀ u ∈ m, u ≠ 0x2028 ∧ u ≠ 0x2029) :
    (frameChunks m).flatten = m ++ [LF] := by
  unfold frameChunks
  split
  · next hlen =>
    rw [regexMatch_getD]
    apply matchLoop_join _ _ (le_refl _)
    rcases h with h | h
    · simp only [List.length_append, List.length_singleton] at hlen
      omega
    · intro u hu
      rcases List.mem_append.1 hu with h1 | h1
      · exact atomMatches_of_ne u (h u h1)
      · rw [List.mem_singleton.1 h1]
        rfl
  · simp

theorem timerCallback_cached (s : State) (t : Timer) (r : Bool) (ch : Characteristic)
    (hc : s.characteristicCache = some ch) :
    timerCallback s t r =
      { s with
        timers := s.timers.erase t
        writes := s.writes ++
          [{ characteristic := ch, data := t.chunk, value := textEncode t.chunk,
             rejected := r }] } := by
  simp [timerCallback, writeToCharacteristic, hc]

/-- With a characteristic cached, the timeouts write their chunks in order and
touch nothing but the pending timeouts and the record of the writes. -/
theorem fireTimers_cached (rejects : Nat → Bool) (ch : Characteristic) (ts : List Timer) :
    ∀ (s : State) (i : Nat), s.characteristicCache = some ch →
      (fireTimers rejects s i ts).writes =
        s.writes ++ (ts.enumFrom i).map (fun p =>
          { characteristic := ch, data := p.2.chunk, value := textEncode p.2.chunk,
            rejected := rejects p.1 }) ∧
      (fireTimers rejects s i ts).terminal = s.terminal ∧
      (fireTimers rejects s i ts).characteristicCache = some ch ∧
      (fireTimers rejects s i ts).deviceCache = s.deviceCache ∧
      (fireTimers rejects s i ts).readBuffer = s.readBuffer := by
  induction ts with
  | nil => intro s i hc; simp [fireTimers, hc]
  | cons t ts ih =>
    intro s i hc
    simp only [fireTimers]
    rw [timerCallback_cached s t _ ch hc]
    obtain ⟨h1, h2, h3, h4, h5⟩ := ih
      { s with
        timers := s.timers.erase t
        writes := s.writes ++
          [{ characteristic := ch, data := t.chunk, value := textEncode t.chunk,
             rejected := rejects i }] } (i + 1) hc
    refine ⟨?_, h2, h3, h4, h5⟩
    rw [h1]
    simp [List.enumFrom_cons]

theorem enumFrom_timers (rejects : Nat → Bool) (ch : Characteristic) (rest : List JSString) :
    ∀ i : Nat,
      ((((rest.enumFrom i).map fun p => ({ delay := p.1 * 100, chunk := p.2 } : Timer)).enumFrom
        i).map fun p =>
          ({ characteristic := ch, data := p.2.chunk, value := textEncode p.2.chunk,
             rejected := rejects p.1 } : WriteCall)) =
      (rest.enumFrom i).map fun p =>
        ({ characteristic := ch, data := p.2, value := textEncode p.2,
           rejected := rejects p.1 } : WriteCall) := by
  induction rest with
  | nil => intro i; rfl
  | cons c rest ih =>
    intro i
    simp only [List.enumFrom_cons, List.map_cons, ih (i + 1)]

/-- What a call of `send` does when a characteristic is cached and the message
is not empty. -/
theorem send_cached (s : State) (m : JSString) (r : Bool) (ch : Characteristic)
    (hc : s.characteristicCache = some ch) (hm : m ≠ []) :
    ∃ c0 rest, frameChunks m = c0 :: rest ∧
      send s m r = some
        { s with
          writes := s.writes ++
            [{ characteristic := ch, data := c0, value := textEncode c0, rejected := r }]
          timers := s.timers ++
            (rest.enumFrom 1).map (fun p => { delay := p.1 * 100, chunk := p.2 })
          terminal := s.terminal ++
            [{ className := lit "out", textContent := m ++ [LF] }] } := by
  obtain ⟨c0, rest, hcr⟩ := List.exists_cons_of_ne_nil (frameChunks_ne_nil m)
  refine ⟨c0, rest, hcr, ?_⟩
  have hguard : ¬(m = [] ∨ s.characteristicCache = none) := by simp [hm, hc]
  unfold frameChunks at hcr
  by_cases hlen : (m ++ [LF]).length > 20
  · rw [if_pos hlen, regexMatch_getD] at hcr
    simp only [send, if_neg hguard, if_pos hlen, regexMatch_eq _ _ _ hcr,
      writeToCharacteristic, hc, Option.map_some', log]
    rw [if_neg (by simp [hm])]
  · rw [if_neg hlen] at hcr
    simp only [List.cons.injEq] at hcr
    obtain ⟨h1, h2⟩ := hcr
    subst h1 h2
    simp only [send, if_neg hguard, if_neg hlen, writeToCharacteristic, hc,
      Option.map_some', log, List.enumFrom_nil, List.map_nil, List.append_nil]
    rw [if_neg (by simp [hm])]

theorem send_noop (s : State) (m : JSString) (r : Bool)
    (h : m = [] ∨ s.characteristicCache = none) : send s m r = some s := by
  simp [send, h]

/-- A call of `send` with its timeouts, when a characteristic is cached and the
message is not empty: chunk `i` of `frameChunks` is written as write `i`, and
the terminal gets the one entry of `send`. -/
theorem sendAndDrain_cached (s : State) (m : JSString) (rejects : Nat → Bool)
    (ch : Characteristic) (hc : s.characteristicCache = some ch) (hm : m ≠ []) :
    ∃ s1, sendAndDrain s m rejects = some s1 ∧
      s1.writes = s.writes ++ ((frameChunks m).enumFrom 0).map (fun p =>
        { characteristic := ch, data := p.2, value := textEncode p.2,
          rejected := rejects p.1 }) ∧
      s1.terminal = s.terminal ++ [{ className := lit "out", textContent := m ++ [LF] }] ∧
      s1.characteristicCache = some ch ∧
      s1.deviceCache = s.deviceCache ∧
      s1.readBuffer = s.readBuffer := by
  obtain ⟨c0, rest, hcr, hsend⟩ := send_cached s m (rejects 0) ch hc hm
  simp only [sendAndDrain, hsend, Option.map_some', List.drop_left]
  refine ⟨_, rfl, ?_⟩
  obtain ⟨h1, h2, h3, h4, h5⟩ := fireTimers_cached rejects ch
    ((rest.enumFrom 1).map (fun p => ({ delay := p.1 * 100, chunk := p.2 } : Timer)))
    { s with
      writes := s.writes ++
        [{ characteristic := ch, data := c0, value := textEncode c0, rejected := rejects 0 }]
      timers := s.timers ++
        (rest.enumFrom 1).map (fun p => { delay := p.1 * 100, chunk := p.2 })
      terminal := s.terminal ++
        [{ className := lit "out", textContent := m ++ [LF] }] } 1 hc
  refine ⟨?_, h2, h3, h4, h5⟩
  rw [h1, enumFrom_timers, hcr]
  simp [List.enumFrom_cons]

theorem sentChunks_cached (s : State) (m : JSString) (rejects : Nat → Bool)
    (ch : Characteristic) (hc : s.characteristicCache = some ch) (hm : m ≠ []) :
    sentChunks s m rejects = frameChunks m := by
  obtain ⟨s1, h1, h2, _⟩ := sendAndDrain_cached s m rejects ch hc hm
  simp only [sentChunks, h1, h2, List.drop_left, List.map_map]
  have : ∀ (l : List JSString) (i : Nat),
      (l.enumFrom i).map (WriteCall.data ∘ fun p =>
        ({ characteristic := ch, data := p.2, value := textEncode p.2,
           rejected := rejects p.1 } : WriteCall)) = l := by
    intro l
    induction l with
    | nil => intro i; rfl
    | cons c l ih => intro i; simp [List.enumFrom_cons, ih (i + 1)]
  exact this _ 0

theorem sendAndDrain_noop (s : State) (m : JSString) (rejects : Nat → Bool)
    (h : m = [] ∨ s.characteristicCache = none) : sendAndDrain s m rejects = some s := by
  simp [sendAndDrain, send_noop s m _ h, fireTimers]

/-! ## The read buffer along the events -/

theorem handle_readBuffer_noLF (s : State) (v : JSString) (hb : LF ∉ s.readBuffer) :
    LF ∉ (handleCharacteristicValueChanged s v).readBuffer := by
  rw [handle_eq_reference v s hb]
  show LF ∉ (referenceDecode (s.readBuffer ++ v)).2
  simp only [referenceDecode]
  obtain ⟨p, ps, hps⟩ := List.exists_cons_of_ne_nil (splitOn_ne_nil (s.readBuffer ++ v))
  have hlast : (p :: ps).getLast? = some ((p :: ps).getLast (List.cons_ne_nil _ _)) :=
    List.getLast?_eq_getLast _ _
  rw [hps, hlast, Option.getD_some]
  exact splitOn_pieces (s.readBuffer ++ v) _ (by rw [hps]; exact List.getLast_mem _)

theorem connectThenStart_readBuffer (s : State) (d : Device) :
    (connectThenStart s d).readBuffer = s.readBuffer := by
  unfold connectThenStart connectDeviceAndCacheCharacteristic
  by_cases h : d ∈ s.connected ∧ s.characteristicCache ≠ none
  · rw [if_pos h]
    cases hc : s.characteristicCache with
    | none => exact absurd hc h.2
    | some ch => rfl
  · rw [if_neg h]
    rfl

theorem disconnect_readBuffer (s : State) : (disconnect s).readBuffer = s.readBuffer := by
  have h1 : (disconnectDevice s).readBuffer = s.readBuffer := by
    unfold disconnectDevice
    split
    · simp only []
      split <;> rfl
    · rfl
  have h2 : ∀ t : State, (releaseCharacteristic t).readBuffer = t.readBuffer := by
    intro t
    unfold releaseCharacteristic
    split <;> rfl
  show (releaseCharacteristic (disconnectDevice s)).readBuffer = s.readBuffer
  rw [h2, h1]

theorem send_readBuffer (s s1 : State) (m : JSString) (r : Bool) (h : send s m r = some s1) :
    s1.readBuffer = s.readBuffer := by
  by_cases hg : m = [] ∨ s.characteristicCache = none
  · rw [send_noop s m r hg] at h
    cases h
    rfl
  · have hm : m ≠ [] := fun hm => hg (Or.inl hm)
    cases hc : s.characteristicCache with
    | none => exact absurd (Or.inr hc) hg
    | some ch =>
      obtain ⟨c0, rest, _, hsend⟩ := send_cached s m r ch hc hm
      rw [hsend] at h
      cases h
      rfl

theorem timerCallback_readBuffer (s : State) (t : Timer) (r : Bool) :
    (timerCallback s t r).readBuffer = s.readBuffer := by
  unfold timerCallback writeToCharacteristic
  cases s.characteristicCache <;> rfl

theorem step_readBuffer (s : State) (e : Event)
    (he : ∀ ch v, e ≠ Event.valueChanged ch v) : (step s e).readBuffer = s.readBuffer := by
  cases e with
  | connectClicked =>
    simp only [step, connect]
    cases s.deviceCache with
    | none => rfl
    | some d => exact connectThenStart_readBuffer s d
  | disconnectClicked => exact disconnect_readBuffer s
  | deviceSelected d =>
    simp only [step, deviceSelected]
    rw [connectThenStart_readBuffer]
    rfl
  | serverConnected d => rfl
  | serviceFound => rfl
  | characteristicFound ch => rfl
  | notificationsStarted ch => rfl
  | chainRejected err => rfl
  | gattServerDisconnected d =>
    simp only [step, handleDisconnection]
    split
    · rw [connectThenStart_readBuffer]
      rfl
    · rfl
  | valueChanged ch v => exact absurd rfl (he ch v)
  | sendCalled m r =>
    simp only [step]
    cases h : send s m r with
    | none => rfl
    | some s1 => exact send_readBuffer s s1 m r h
  | timeout t r =>
    simp only [step]
    split
    · exact timerCallback_readBuffer s t r
    · rfl

theorem step_noLF (s : State) (e : Event) (hb : LF ∉ s.readBuffer) :
    LF ∉ (step s e).readBuffer := by
  by_cases he : ∀ ch v, e ≠ Event.valueChanged ch v
  · rw [step_readBuffer s e he]
    exact hb
  · push_neg at he
    obtain ⟨ch, v, rfl⟩ := he
    simp only [step]
    split
    · exact handle_readBuffer_noLF s v hb
    · exact hb

theorem run_noLF (events : List Event) : ∀ s : State, LF ∉ s.readBuffer →
    LF ∉ (run s events).readBuffer := by
  induction events with
  | nil => intro s hb; exact hb
  | cons e events ih =>
    intro s hb
    exact ih (step s e) (step_noLF s e hb)

/-! ## `TextEncoder`: the size of the encoded chunks -/

theorem utf8Bytes_length_le_four (cp : Nat) : (utf8Bytes cp).length ≤ 4 := by
  unfold utf8Bytes
  split_ifs <;> simp

theorem utf8Bytes_length_le_three (cp : Nat) (h : cp < 0x10000) : (utf8Bytes cp).length ≤ 3 := by
  unfold utf8Bytes
  split_ifs <;> simp

theorem toScalarValues_ascii (c : JSString) (h : IsAscii c) : toScalarValues c = c := by
  induction c with
  | nil => rfl
  | cons u rest ih =>
    have hu : u < 0x80 := h u (List.mem_cons_self _ _)
    have hrest : IsAscii rest := fun x hx => h x (List.mem_cons_of_mem _ hx)
    have h1 : isLeadSurrogate u = false := by
      simp only [isLeadSurrogate, Bool.and_eq_false_iff, decide_eq_false_iff_not]
      omega
    have h2 : isTrailSurrogate u = false := by
      simp only [isTrailSurrogate, Bool.and_eq_false_iff, decide_eq_false_iff_not]
      omega
    cases rest with
    | nil => simp [toScalarValues, h1, h2]
    | cons v rest => simp [toScalarValues, h1, h2, ih hrest]

theorem textEncode_ascii (c : JSString) (h : IsAscii c) : textEncode c = c := by
  unfold textEncode
  rw [toScalarValues_ascii c h]
  induction c with
  | nil => rfl
  | cons u rest ih =>
    have hu : u < 0x80 := h u (List.mem_cons_self _ _)
    have hrest : IsAscii rest := fun x hx => h x (List.mem_cons_of_mem _ hx)
    simp [List.flatMap_cons, utf8Bytes, hu, ih hrest]

theorem textEncode_length_le (c : JSString) : WellFormed c →
    (textEncode c).length ≤ 3 * c.length := by
  unfold textEncode
  induction c using toScalarValues.induct with
  | case1 => intro _; simp [toScalarValues]
  | case2 u =>
    intro h
    have hu : u < 0x10000 := h u (List.mem_cons_self _ _)
    have hx : (if isLeadSurrogate u || isTrailSurrogate u then 0xFFFD else u) < 0x10000 := by
      split <;> omega
    have := utf8Bytes_length_le_three _ hx
    simpa [toScalarValues] using this
  | case3 u v rest hp ih =>
    intro h
    have hrest : WellFormed rest := fun x hx =>
      h x (List.mem_cons_of_mem _ (List.mem_cons_of_mem _ hx))
    have h4 := utf8Bytes_length_le_four (0x10000 + (u - 0xD800) * 0x400 + (v - 0xDC00))
    have := ih hrest
    simp only [toScalarValues, hp, if_true, List.flatMap_cons, List.length_append,
      List.length_cons]
    omega
  | case4 u v rest hp ih =>
    intro h
    have hu : u < 0x10000 := h u (List.mem_cons_self _ _)
    have hrest : WellFormed (v :: rest) := fun x hx => h x (List.mem_cons_of_mem _ hx)
    have hx : (if isLeadSurrogate u || isTrailSurrogate u then 0xFFFD else u) < 0x10000 := by
      split <;> omega
    have h3 := utf8Bytes_length_le_three _ hx
    have := ih hrest
    simp only [toScalarValues, hp, Bool.false_eq_true, if_false, List.flatMap_cons,
      List.length_append, List.length_cons] at this ⊢
    omega

/-- Feeding the chunks one notification after the other is feeding their
concatenation. -/
theorem foldl_handle_flatten (chunks : List JSString) : ∀ t : State,
    chunks.foldl handleCharacteristicValueChanged t =
      handleCharacteristicValueChanged t chunks.flatten := by
  induction chunks with
  | nil => intro t; rfl
  | cons c chunks ih =>
    intro t
    rw [List.foldl_cons, ih, List.flatten_cons, handle_append]

theorem handle_line (t : State) (m : JSString) (hm : LF ∉ m) (ht : t.readBuffer = []) :
    handleCharacteristicValueChanged t (m ++ [LF]) =
      if trim m = [] then t else receive t (trim m) := by
  have hb : LF ∉ t.readBuffer := by simp [ht]
  rw [handle_eq_reference _ t hb, ht, List.nil_append, referenceDecode_line m [] hm,
    referenceDecode_single [] (by simp)]
  by_cases h : trim m = []
  · simp only [h, ne_eq, not_true_eq_false, if_false, if_true, List.append_nil, List.foldl_nil]
    cases t
    simp only [] at ht
    subst ht
    rfl
  · simp only [h, ne_eq, not_false_eq_true, if_true, if_false, List.append_nil, List.foldl_cons,
      List.foldl_nil]
    have hr := receive_readBuffer t (trim m)
    rw [ht] at hr
    generalize receive t (trim m) = r at hr
    cases r
    simp only [] at hr
    subst hr
    rfl

theorem connectThenStart_caches (s : State) (d : Device) :
    (connectThenStart s d).characteristicCache = s.characteristicCache ∧
    (connectThenStart s d).deviceCache = s.deviceCache ∧
    (connectThenStart s d).writes = s.writes := by
  unfold connectThenStart connectDeviceAndCacheCharacteristic
  by_cases h : d ∈ s.connected ∧ s.characteristicCache ≠ none
  · rw [if_pos h]
    cases hc : s.characteristicCache with
    | none => exact absurd hc h.2
    | some ch => exact ⟨hc, rfl, rfl⟩
  · rw [if_neg h]
    exact ⟨rfl, rfl, rfl⟩

/-- A message of 20 or more code units without U+2028 and U+2029 makes at
least two chunks. -/
theorem frameChunks_two (m : JSString) (hlen : 20 ≤ m.length)
    (h : ∀ u ∈ m, u ≠ 0x2028 ∧ u ≠ 0x2029) : 2 ≤ (frameChunks m).length := by
  have hflat := frameChunks_flatten m (Or.inr h)
  have hchunks := frameChunks_chunks m
  cases hc : frameChunks m with
  | nil => exact absurd hc (frameChunks_ne_nil m)
  | cons c0 rest =>
    cases rest with
    | nil =>
      rw [hc] at hflat hchunks
      have h1 := (hchunks c0 (List.mem_cons_self _ _)).2.1
      have h2 : c0 = m ++ [LF] := by simpa using hflat
      rw [h2, List.length_append, List.length_singleton] at h1
      omega
    | cons c1 rest => simp

/-! ## `TextDecoder` after `TextEncoder` -/

theorem utf8Decode_first (b : Nat) (rest : List Nat) :
    utf8Decode Utf8Decoder.start (b :: rest) =
      (leadByte b).1 ++ utf8Decode (leadByte b).2 rest := by
  simp [utf8Decode, Utf8Decoder.start]

theorem utf8Decode_continue (cp seen needed lo hi b : Nat) (rest : List Nat)
    (hn : needed ≠ 0) (hlo : lo ≤ b) (hhi : b ≤ hi) (hs : seen + 1 ≠ needed) :
    utf8Decode { codePoint := cp, bytesSeen := seen, bytesNeeded := needed,
                 lowerBoundary := lo, upperBoundary := hi } (b :: rest) =
      utf8Decode { codePoint := cp * 0x40 + b % 0x40, bytesSeen := seen + 1,
                   bytesNeeded := needed, lowerBoundary := 0x80, upperBoundary := 0xBF }
        rest := by
  have hb : ¬(b < lo ∨ hi < b) := by omega
  simp only [utf8Decode, hn, hb, hs, if_false, ne_eq, not_false_eq_true, if_true]

theorem utf8Decode_finish (cp seen needed lo hi b : Nat) (rest : List Nat)
    (hn : needed ≠ 0) (hlo : lo ≤ b) (hhi : b ≤ hi) (hs : seen + 1 = needed) :
    utf8Decode { codePoint := cp, bytesSeen := seen, bytesNeeded := needed,
                 lowerBoundary := lo, upperBoundary := hi } (b :: rest) =
      (cp * 0x40 + b % 0x40) :: utf8Decode Utf8Decoder.start rest := by
  have hb : ¬(b < lo ∨ hi < b) := by omega
  simp only [utf8Decode, hn, hb, hs, if_false, ne_eq, not_true_eq_false]

theorem leadByte_ascii (b : Nat) (h : b ≤ 0x7F) : leadByte b = ([b], Utf8Decoder.start) := by
  simp [leadByte, h]

theorem leadByte_two (b : Nat) (h : 0xC2 ≤ b ∧ b ≤ 0xDF) :
    leadByte b =
      ([], { codePoint := b % 0x20, bytesSeen := 0, bytesNeeded := 1, lowerBoundary := 0x80,
             upperBoundary := 0xBF }) := by
  have h0 : ¬b ≤ 0x7F := by omega
  simp only [leadByte, h0, h, if_false, and_self, if_true]

theorem leadByte_three (b : Nat) (h : 0xE0 ≤ b ∧ b ≤ 0xEF) :
    leadByte b =
      ([], { codePoint := b % 0x10, bytesSeen := 0, bytesNeeded := 2,
             lowerBoundary := if b = 0xE0 then 0xA0 else 0x80,
             upperBoundary := if b = 0xED then 0x9F else 0xBF }) := by
  have h0 : ¬b ≤ 0x7F := by omega
  have h1 : ¬(0xC2 ≤ b ∧ b ≤ 0xDF) := by omega
  simp only [leadByte, h0, h1, h, if_false, and_self, if_true]

theorem leadByte_four (b : Nat) (h : 0xF0 ≤ b ∧ b ≤ 0xF4) :
    leadByte b =
      ([], { codePoint := b % 0x08, bytesSeen := 0, bytesNeeded := 3,
             lowerBoundary := if b = 0xF0 then 0x90 else 0x80,
             upperBoundary := if b = 0xF4 then 0x8F else 0xBF }) := by
  have h0 : ¬b ≤ 0x7F := by omega
  have h1 : ¬(0xC2 ≤ b ∧ b ≤ 0xDF) := by omega
  have h2 : ¬(0xE0 ≤ b ∧ b ≤ 0xEF) := by omega
  simp only [leadByte, h0, h1, h2, h, if_false, and_self, if_true]

/-- The decoder reads the bytes of a scalar value back as that scalar value. -/
theorem utf8Decode_scalar (cp : Nat) (rest : List Nat) (h1 : cp < 0x110000)
    (h2 : cp < 0xD800 ∨ 0xDFFF < cp) :
    utf8Decode Utf8Decoder.start (utf8Bytes cp ++ rest) =
      cp :: utf8Decode Utf8Decoder.start rest := by
  unfold utf8Bytes
  by_cases c1 : cp < 0x80
  · rw [if_pos c1, List.singleton_append, utf8Decode_first, leadByte_ascii cp (by omega)]
    rfl
  · rw [if_neg c1]
    by_cases c2 : cp < 0x800
    · rw [if_pos c2, List.cons_append, List.singleton_append, utf8Decode_first,
        leadByte_two _ (by omega)]
      simp only [List.nil_append]
      rw [utf8Decode_finish _ _ _ _ _ _ _ (by decide) (by omega) (by omega) rfl]
      congr 1
      omega
    · rw [if_neg c2]
      by_cases c3 : cp < 0x10000
      · rw [if_pos c3, List.cons_append, List.cons_append, List.singleton_append,
          utf8Decode_first, leadByte_three _ (by omega)]
        simp only [List.nil_append]
        rw [utf8Decode_continue _ _ _ _ _ _ _ (by decide) (by split <;> omega)
          (by split <;> omega) (by decide),
          utf8Decode_finish _ _ _ _ _ _ _ (by decide) (by omega) (by omega) rfl]
        congr 1
        omega
      · rw [if_neg c3, List.cons_append, List.cons_append, List.cons_append,
          List.singleton_append, utf8Decode_first, leadByte_four _ (by omega)]
        simp only [List.nil_append]
        rw [utf8Decode_continue _ _ _ _ _ _ _ (by decide) (by split <;> omega)
          (by split <;> omega) (by decide),
          utf8Decode_continue _ _ _ _ _ _ _ (by decide) (by omega) (by omega) (by decide),
          utf8Decode_finish _ _ _ _ _ _ _ (by decide) (by omega) (by omega) rfl]
        congr 1
        omega

theorem utf8Decode_flatMap (cps : List Nat)
    (h : ∀ cp ∈ cps, cp < 0x110000 ∧ (cp < 0xD800 ∨ 0xDFFF < cp)) :
    utf8Decode Utf8Decoder.start (cps.flatMap utf8Bytes) = cps := by
  induction cps with
  | nil => rfl
  | cons cp cps ih =>
    obtain ⟨h1, h2⟩ := h cp (List.mem_cons_self _ _)
    rw [List.flatMap_cons, utf8Decode_scalar cp _ h1 h2,
      ih (fun x hx => h x (List.mem_cons_of_mem _ hx))]

theorem toScalarValues_cons (u : Nat) (rest : JSString) (h1 : isLeadSurrogate u = false)
    (h2 : isTrailSurrogate u = false) :
    toScalarValues (u :: rest) = u :: toScalarValues rest := by
  cases rest with
  | nil => simp [toScalarValues, h1, h2]
  | cons v rest => simp [toScalarValues, h1, h2]

theorem isWellFormedUTF16_cons (u : Nat) (rest : JSString) (h1 : isLeadSurrogate u = false)
    (h2 : isTrailSurrogate u = false) :
    isWellFormedUTF16 (u :: rest) = isWellFormedUTF16 rest := by
  cases rest with
  | nil => simp [isWellFormedUTF16, h1, h2]
  | cons v rest => simp [isWellFormedUTF16, h1, h2]

/-- The scalar values of a well-formed string are scalar values, and their
code units are the string. -/
theorem toScalarValues_wellFormed (c : JSString) : WellFormed c →
    isWellFormedUTF16 c = true →
    (∀ cp ∈ toScalarValues c, cp < 0x110000 ∧ (cp < 0xD800 ∨ 0xDFFF < cp)) ∧
    (toScalarValues c).flatMap toCodeUnits = c ∧
    ((toScalarValues c).head? = some 0xFEFF → c.head? = some 0xFEFF) := by
  induction c using toScalarValues.induct with
  | case1 => intro _ _; simp [toScalarValues]
  | case2 u =>
    intro hw hu
    have hlt : u < 0x10000 := hw u (List.mem_cons_self _ _)
    simp only [isWellFormedUTF16, Bool.not_eq_true', Bool.or_eq_false_iff] at hu
    obtain ⟨hl, ht⟩ := hu
    have hl2 := hl
    have ht2 := ht
    simp only [isLeadSurrogate, isTrailSurrogate, Bool.and_eq_false_iff,
      decide_eq_false_iff_not] at hl2 ht2
    rw [toScalarValues_cons u [] hl ht]
    refine ⟨?_, ?_, ?_⟩
    · intro cp hcpm
      simp only [toScalarValues, List.mem_singleton] at hcpm
      omega
    · simp only [toScalarValues, List.flatMap_cons, List.flatMap_nil, toCodeUnits, hlt,
        if_true, List.append_nil]
    · intro hh
      simpa using hh
  | case3 u v rest hp ih =>
    intro hw hu
    have hrest : WellFormed rest := fun x hx =>
      hw x (List.mem_cons_of_mem _ (List.mem_cons_of_mem _ hx))
    simp only [isWellFormedUTF16, hp, if_true] at hu
    obtain ⟨i1, i2, _⟩ := ih hrest hu
    have hp2 := hp
    simp only [isLeadSurrogate, isTrailSurrogate, Bool.and_eq_true, decide_eq_true_eq] at hp2
    have hcp : ¬(0x10000 + (u - 0xD800) * 0x400 + (v - 0xDC00) < 0x10000) := by omega
    have e1 : 0xD800 + (0x10000 + (u - 0xD800) * 0x400 + (v - 0xDC00) - 0x10000) / 0x400 = u := by
      omega
    have e2 : 0xDC00 + (0x10000 + (u - 0xD800) * 0x400 + (v - 0xDC00) - 0x10000) % 0x400 = v := by
      omega
    refine ⟨?_, ?_, ?_⟩
    · intro cp hcpm
      simp only [toScalarValues, hp, if_true, List.mem_cons] at hcpm
      rcases hcpm with h | h
      · omega
      · exact i1 cp h
    · simp only [toScalarValues, hp, if_true, List.flatMap_cons, toCodeUnits, hcp, if_false,
        e1, e2, i2]
      rfl
    · intro hh
      simp only [toScalarValues, hp, if_true, List.head?_cons, Option.some.injEq] at hh
      omega
  | case4 u v rest hp ih =>
    intro hw hu
    have hlt : u < 0x10000 := hw u (List.mem_cons_self _ _)
    have hrest : WellFormed (v :: rest) := fun x hx => hw x (List.mem_cons_of_mem _ hx)
    simp only [isWellFormedUTF16, hp, Bool.false_eq_true, if_false, Bool.and_eq_true,
      Bool.not_eq_true', Bool.or_eq_false_iff] at hu
    obtain ⟨⟨hl, ht⟩, hu2⟩ := hu
    obtain ⟨i1, i2, _⟩ := ih hrest hu2
    have hl2 := hl
    have ht2 := ht
    simp only [isLeadSurrogate, isTrailSurrogate, Bool.and_eq_false_iff,
      decide_eq_false_iff_not] at hl2 ht2
    rw [toScalarValues_cons u (v :: rest) hl ht]
    refine ⟨?_, ?_, ?_⟩
    · intro cp hcpm
      rcases List.mem_cons.1 hcpm with h | h
      · omega
      · exact i1 cp h
    · simp only [List.flatMap_cons, toCodeUnits, hlt, if_true, i2]
      rfl
    · intro hh
      simpa using hh

/-- What a fresh `TextDecoder` makes of the bytes `TextEncoder` made of a
well-formed string: the string, without its first code unit when that is
U+FEFF. -/
theorem textDecode_textEncode (c : JSString) (hw : WellFormed c)
    (hu : isWellFormedUTF16 c = true) :
    textDecode (textEncode c) = if c.head? = some 0xFEFF then c.tail else c := by
  obtain ⟨h1, h2, h3⟩ := toScalarValues_wellFormed c hw hu
  unfold textDecode textEncode
  rw [utf8Decode_flatMap _ h1]
  by_cases hb : c.head? = some 0xFEFF
  · rw [if_pos hb]
    cases c with
    | nil => simp at hb
    | cons u rest =>
      simp only [List.head?_cons, Option.some.injEq] at hb
      subst hb
      have hl : isLeadSurrogate 0xFEFF = false := by decide
      have ht : isTrailSurrogate 0xFEFF = false := by decide
      have hrest : WellFormed rest := fun x hx => hw x (List.mem_cons_of_mem _ hx)
      rw [isWellFormedUTF16_cons _ rest hl ht] at hu
      rw [toScalarValues_cons _ rest hl ht]
      simp only [dropByteOrderMark, List.head?_cons, if_true, List.tail_cons]
      exact (toScalarValues_wellFormed rest hrest hu).2.1
  · rw [if_neg hb]
    have : (toScalarValues c).head? ≠ some 0xFEFF := fun h => hb (h3 h)
    simp only [dropByteOrderMark, this, if_false]
    exact h2

theorem trim_cons (u : Nat) (m : JSString) (h : isTrimmable u = true) :
    trim (u :: m) = trim m := by
  simp [trim, List.dropWhile_cons, h]

theorem sentValues_cached (s : State) (m : JSString) (rejects : Nat → Bool)
    (ch : Characteristic) (hc : s.characteristicCache = some ch) (hm : m ≠ []) :
    sentValues s m rejects = (frameChunks m).map textEncode := by
  obtain ⟨s1, h1, h2, _⟩ := sendAndDrain_cached s m rejects ch hc hm
  simp only [sentValues, h1, h2, List.drop_left, List.map_map]
  have : ∀ (l : List JSString) (i : Nat),
      (l.enumFrom i).map (WriteCall.value ∘ fun p =>
        ({ characteristic := ch, data := p.2, value := textEncode p.2,
           rejected := rejects p.1 } : WriteCall)) = l.map textEncode := by
    intro l
    induction l with
    | nil => intro i; rfl
    | cons c l ih => intro i; simp [List.enumFrom_cons, ih (i + 1)]
  exact this _ 0

theorem foldl_event_eq (values : List (List Nat)) (t : State) :
    values.foldl handleCharacteristicValueChangedEvent t =
      handleCharacteristicValueChanged t (values.map textDecode).flatten := by
  rw [← foldl_handle_flatten, List.foldl_map]
  rfl

/-- The text the handler sees for the chunks of `m`, when every chunk is
well-formed and no chunk but the first begins with U+FEFF: `m + '\n'`, without
a U+FEFF in front. -/
theorem decoded_chunks (m : JSString) (hm : m ≠ []) (hwf : WellFormed m)
    (hls : m.length < 20 ∨ ∀ u ∈ m, u ≠ 0x2028 ∧ u ≠ 0x2029)
    (hsur : ∀ c ∈ frameChunks m, isWellFormedUTF16 c = true)
    (hbom : ∀ c ∈ (frameChunks m).tail, c.head? ≠ some 0xFEFF) :
    (((frameChunks m).map textEncode).map textDecode).flatten =
      (if m.head? = some 0xFEFF then m.tail else m) ++ [LF] := by
  have hflat := frameChunks_flatten m hls
  have hchunks := frameChunks_chunks m
  have hwfc : ∀ c ∈ frameChunks m, WellFormed c := by
    intro c hc u hu
    rcases List.mem_append.1 ((hchunks c hc).2.2 u hu) with h | h
    · exact hwf u h
    · rw [List.mem_singleton.1 h]
      decide
  cases hfc : frameChunks m with
  | nil => exact absurd hfc (frameChunks_ne_nil m)
  | cons c0 rest =>
    rw [hfc] at hflat hsur hbom hwfc hchunks
    have hrest : (rest.map textEncode).map textDecode = rest := by
      rw [List.map_map]
      conv_rhs => rw [← List.map_id rest]
      apply List.map_congr_left
      intro c hc
      have := textDecode_textEncode c (hwfc c (List.mem_cons_of_mem _ hc))
        (hsur c (List.mem_cons_of_mem _ hc))
      rw [Function.comp_apply, this, if_neg (hbom c hc)]
      rfl
    have hc0 : c0 ≠ [] := (hchunks c0 (List.mem_cons_self _ _)).1
    simp only [List.map_cons, List.flatten_cons, hrest]
    rw [textDecode_textEncode c0 (hwfc c0 (List.mem_cons_self _ _))
      (hsur c0 (List.mem_cons_self _ _))]
    rw [List.flatten_cons] at hflat
    obtain ⟨u, m1, rfl⟩ := List.exists_cons_of_ne_nil hm
    obtain ⟨u0, c1, rfl⟩ := List.exists_cons_of_ne_nil hc0
    have hu : u0 = u := by
      have := congrArg List.head? hflat
      simpa using this
    subst hu
    have htail : c1 ++ rest.flatten = m1 ++ [LF] := by
      have := congrArg List.tail hflat
      simpa using this
    simp only [List.head?_cons, List.tail_cons]
    by_cases hb : u0 = 0xFEFF
    · simp only [hb, if_true]
      exact htail
    · have hb2 : ¬(some u0 = some 0xFEFF) := by simpa using hb
      simp only [hb2, if_false]
      exact hflat

/-! ## The claims -/

/-- C1, as stated, fails, at three messages without a line feed, sent with a
characteristic cached and received on an empty buffer.  At `" "`, `send`
writes the bytes of `" \n"` and the handler calls `receive` not at all (the
state is unchanged), where the claim has one call `receive(m.trim())`.  At
nineteen `a`, U+1F600 (the pair D83D DE00) and `b`, the chunks are cut inside
the pair, `TextEncoder` turns each half into U+FFFD, and `receive` gets
nineteen `a`, U+FFFD, U+FFFD, `b`.  At twenty `a`, U+FEFF and `b`, the second
chunk begins with U+FEFF, the `TextDecoder` of its notification drops it as a
byte order mark, and `receive` gets twenty `a` and `b`. -/
theorem round_trip_counterexamples :
    (LF ∉ lit " " ∧
      (sentValues cachedState (lit " ") (fun _ => false)).foldl
        handleCharacteristicValueChangedEvent initialState = initialState ∧
      (sentValues cachedState (lit " ") (fun _ => false)).foldl
        handleCharacteristicValueChangedEvent initialState ≠
          receive initialState (trim (lit " "))) ∧
    (LF ∉ List.replicate 19 0x61 ++ [0xD83D, 0xDE00, 0x62] ∧
      (sentValues cachedState (List.replicate 19 0x61 ++ [0xD83D, 0xDE00, 0x62])
          (fun _ => false)).foldl handleCharacteristicValueChangedEvent initialState =
        receive initialState (List.replicate 19 0x61 ++ [0xFFFD, 0xFFFD, 0x62]) ∧
      (sentValues cachedState (List.replicate 19 0x61 ++ [0xD83D, 0xDE00, 0x62])
          (fun _ => false)).foldl handleCharacteristicValueChangedEvent initialState ≠
        receive initialState (trim (List.replicate 19 0x61 ++ [0xD83D, 0xDE00, 0x62]))) ∧
    (LF ∉ List.replicate 20 0x61 ++ [0xFEFF, 0x62] ∧
      (sentValues cachedState (List.replicate 20 0x61 ++ [0xFEFF, 0x62])
          (fun _ => false)).foldl handleCharacteristicValueChangedEvent initialState =
        receive initialState (List.replicate 20 0x61 ++ [0x62]) ∧
      (sentValues cachedState (List.replicate 20 0x61 ++ [0xFEFF, 0x62])
          (fun _ => false)).foldl handleCharacteristicValueChangedEvent initialState ≠
        receive initialState (trim (List.replicate 20 0x61 ++ [0xFEFF, 0x62]))) := by
  decide

/-- C1, amended: while a characteristic is cached, for every message `m` (of
UTF-16 code units) without a line feed, that is shorter than 20 or holds
neither U+2028 nor U+2029, and whose chunks as `send` writes them are each
well-formed UTF-16 (no lone surrogate in `m`, no chunk cut inside a surrogate
pair) and, but for the first, do not begin with U+FEFF: feeding the values
`send` hands to `writeValue` for `m` (the chunks encoded by `TextEncoder`), in
order, to `handleCharacteristicValueChanged` (which decodes each with a fresh
`TextDecoder`) on an empty `readBuffer` calls `receive` exactly once, with
`m.trim()`, when `m.trim()` is not empty, and not at all when it is empty (an
empty or blank `m`); `readBuffer` is empty afterwards. -/
theorem framing_round_trip (s t : State) (ch : Characteristic) (m : JSString)
    (rejects : Nat → Bool) (hc : s.characteristicCache = some ch) (hm : LF ∉ m)
    (hwf : WellFormed m)
    (hls : m.length < 20 ∨ ∀ u ∈ m, u ≠ 0x2028 ∧ u ≠ 0x2029)
    (hsur : ∀ c ∈ sentChunks s m rejects, isWellFormedUTF16 c = true)
    (hbom : ∀ c ∈ (sentChunks s m rejects).tail, c.head? ≠ some 0xFEFF)
    (ht : t.readBuffer = []) :
    (sentValues s m rejects).foldl handleCharacteristicValueChangedEvent t =
      (if trim m = [] then t else receive t (trim m)) ∧
    ((sentValues s m rejects).foldl handleCharacteristicValueChangedEvent t).readBuffer =
      [] := by
  have key : (sentValues s m rejects).foldl handleCharacteristicValueChangedEvent t =
      (if trim m = [] then t else receive t (trim m)) := by
    by_cases hnil : m = []
    · subst hnil
      simp [sentValues, sendAndDrain_noop s [] rejects (Or.inl rfl), trim]
    · rw [sentChunks_cached s m rejects ch hc hnil] at hsur hbom
      rw [sentValues_cached s m rejects ch hc hnil, foldl_event_eq,
        decoded_chunks m hnil hwf hls hsur hbom]
      obtain ⟨u, m1, rfl⟩ := List.exists_cons_of_ne_nil hnil
      by_cases hb : u = 0xFEFF
      · subst hb
        have hm1 : LF ∉ m1 := fun h => hm (List.mem_cons_of_mem _ h)
        simp only [List.head?_cons, if_true, List.tail_cons]
        rw [handle_line t m1 hm1 ht, trim_cons 0xFEFF m1 (by decide)]
      · have hb2 : ¬(some u = some 0xFEFF) := by simpa using hb
        simp only [List.head?_cons, hb2, if_false]
        exact handle_line t (u :: m1) hm ht
  refine ⟨key, ?_⟩
  rw [key]
  split
  · exact ht
  · rw [receive_readBuffer, ht]

/-- C1, amended, at a message of 23 code units sent as two chunks: eighteen
`a` and U+1F600 (the pair D83D DE00) fill the first, `é`, `b`, `c` and the
line feed are the second. -/
theorem framing_round_trip_witness :
    (sentChunks cachedState (List.replicate 18 0x61 ++ [0xD83D, 0xDE00, 0xE9, 0x62, 0x63])
      (fun _ => false)).length = 2 ∧
    (sentValues cachedState (List.replicate 18 0x61 ++ [0xD83D, 0xDE00, 0xE9, 0x62, 0x63])
        (fun _ => false)).foldl handleCharacteristicValueChangedEvent initialState =
      (if trim (List.replicate 18 0x61 ++ [0xD83D, 0xDE00, 0xE9, 0x62, 0x63]) = []
        then initialState
        else receive initialState
          (trim (List.replicate 18 0x61 ++ [0xD83D, 0xDE00, 0xE9, 0x62, 0x63]))) ∧
    ((sentValues cachedState (List.replicate 18 0x61 ++ [0xD83D, 0xDE00, 0xE9, 0x62, 0x63])
        (fun _ => false)).foldl handleCharacteristicValueChangedEvent
          initialState).readBuffer = [] :=
  ⟨by decide,
    framing_round_trip cachedState initialState { id := 1 }
      (List.replicate 18 0x61 ++ [0xD83D, 0xDE00, 0xE9, 0x62, 0x63]) (fun _ => false)
      rfl (by decide) (by unfold WellFormed; decide) (Or.inr (by decide)) (by decide)
      (by decide) rfl⟩

/-- C2, as stated, fails at the message of eleven `é` (U+00E9): it is 12 long
with its line feed, so `send` writes it whole, and `TextEncoder` makes 23 bytes
of it. -/
theorem encoded_chunk_exceeds_twenty_bytes :
    (sendAndDrain cachedState (List.replicate 11 0xE9) (fun _ => false)).map
      (fun s1 => s1.writes.map fun w => (w.data.length, w.value.length)) =
        some [(12, 23)] := by
  decide

/-- C2, amended: `send` and its timeouts never throw, and every value they
hand to `writeToCharacteristic` is at most 20 UTF-16 code units long; what
`TextEncoder` makes of it is at most 20 bytes when the message is ASCII, and
at most 60 bytes for any message. -/
theorem chunk_length_bound (s : State) (m : JSString) (rejects : Nat → Bool) :
    ∃ s1, sendAndDrain s m rejects = some s1 ∧
      ∀ w ∈ s1.writes.drop s.writes.length,
        w.data.length ≤ 20 ∧ w.value = textEncode w.data ∧
        (IsAscii m → w.value.length ≤ 20) ∧
        (WellFormed m → w.value.length ≤ 60) := by
  by_cases hg : m = [] ∨ s.characteristicCache = none
  · exact ⟨s, sendAndDrain_noop s m rejects hg, by simp⟩
  · have hm : m ≠ [] := fun hm => hg (Or.inl hm)
    cases hc : s.characteristicCache with
    | none => exact absurd (Or.inr hc) hg
    | some ch =>
      obtain ⟨s1, h1, h2, _⟩ := sendAndDrain_cached s m rejects ch hc hm
      refine ⟨s1, h1, ?_⟩
      intro w hw
      rw [h2, List.drop_left, List.mem_map] at hw
      obtain ⟨p, hp, rfl⟩ := hw
      have hmem : p.2 ∈ frameChunks m := by
        have h3 := List.mem_map_of_mem Prod.snd hp
        rwa [List.enumFrom_map_snd] at h3
      obtain ⟨_, hlen, hsub⟩ := frameChunks_chunks m p.2 hmem
      refine ⟨hlen, rfl, ?_, ?_⟩
      · intro hascii
        have hc2 : IsAscii p.2 := by
          intro u hu
          rcases List.mem_append.1 (hsub u hu) with h | h
          · exact hascii u h
          · rw [List.mem_singleton.1 h]
            decide
        show (textEncode p.2).length ≤ 20
        rw [textEncode_ascii p.2 hc2]
        exact hlen
      · intro hwf
        have hc2 : WellFormed p.2 := by
          intro u hu
          rcases List.mem_append.1 (hsub u hu) with h | h
          · exact hwf u h
          · rw [List.mem_singleton.1 h]
            decide
        have := textEncode_length_le p.2 hc2
        show (textEncode p.2).length ≤ 60
        omega

/-- C2, amended, at the message of eleven `é`. -/
theorem chunk_length_bound_witness :
    ∃ s1, sendAndDrain cachedState (List.replicate 11 0xE9) (fun _ => false) = some s1 ∧
      ∀ w ∈ s1.writes.drop cachedState.writes.length,
        w.data.length ≤ 20 ∧ w.value = textEncode w.data ∧
        (IsAscii (List.replicate 11 0xE9) → w.value.length ≤ 20) ∧
        (WellFormed (List.replicate 11 0xE9) → w.value.length ≤ 60) :=
  chunk_length_bound cachedState (List.replicate 11 0xE9) (fun _ => false)

/-- C3 fails in the code at the message of twenty `a` followed by U+2028: it
is 22 long with its line feed, the regular expression does not match U+2028,
and the chunks written are twenty `a` and `"\n"`; joined they are not
`message + '\n'`, the U+2028 is lost. -/
theorem send_loses_line_separator :
    sentChunks cachedState (List.replicate 20 0x61 ++ [0x2028]) (fun _ => false) =
      [List.replicate 20 0x61, [LF]] ∧
    (sentChunks cachedState (List.replicate 20 0x61 ++ [0x2028]) (fun _ => false)).flatten ≠
      (List.replicate 20 0x61 ++ [0x2028]) ++ [LF] := by
  decide

/-- C4: for every state whose `readBuffer` holds no line feed and every
incoming text `v`, `handleCharacteristicValueChanged` ends in the state reached
by calling `receive`, in order, on the non-empty ones among the trimmed lines
of `readBuffer + v` split at every line feed, with `readBuffer` the
unterminated tail; the terminal gets one entry of class `in` per message; the
pieces of the split hold no line feed and give `readBuffer + v` back when
joined by line feeds; and a run of white space and line terminators ended by a
line feed, on an empty buffer, calls nothing. -/
theorem handleCharacteristicValueChanged_eq_referenceDecode (s : State) (v : JSString)
    (hb : LF ∉ s.readBuffer) :
    handleCharacteristicValueChanged s v =
      { (referenceDecode (s.readBuffer ++ v)).1.foldl receive s with
        readBuffer := (referenceDecode (s.readBuffer ++ v)).2 } ∧
    (handleCharacteristicValueChanged s v).terminal =
      s.terminal ++ (referenceDecode (s.readBuffer ++ v)).1.map
        (fun d => { className := lit "in", textContent := d }) ∧
    (∀ d ∈ (referenceDecode (s.readBuffer ++ v)).1, d ≠ []) ∧
    [LF].intercalate ((s.readBuffer ++ v).splitOn LF) = s.readBuffer ++ v ∧
    (∀ piece ∈ (s.readBuffer ++ v).splitOn LF, LF ∉ piece) ∧
    (∀ w : JSString, (∀ u ∈ w, isTrimmable u = true) →
      handleCharacteristicValueChanged { s with readBuffer := [] } (w ++ [LF]) =
        { s with readBuffer := [] }) := by
  refine ⟨handle_eq_reference v s hb, ?_, ?_, List.intercalate_splitOn _ LF,
    splitOn_pieces _, ?_⟩
  · rw [handle_eq_reference v s hb]
    exact foldl_receive_terminal _ s
  · intro d hd
    simp only [referenceDecode, List.mem_filter, decide_eq_true_eq] at hd
    exact hd.2
  · intro w hw
    exact handle_blank w hw { s with readBuffer := [] } (by simp)

/-- C4 at the buffer `"1"` and the text `"2.5\n \nGAME OVER\nx"`. -/
theorem handleCharacteristicValueChanged_eq_referenceDecode_witness :
    LF ∉ ({ initialState with readBuffer := lit "1" } : State).readBuffer ∧
    handleCharacteristicValueChanged { initialState with readBuffer := lit "1" }
        (lit "2.5\n \nGAME OVER\nx") =
      { [lit "12.5", lit "GAME OVER"].foldl receive
          { initialState with readBuffer := lit "1" } with readBuffer := lit "x" } :=
  ⟨by decide,
    (handleCharacteristicValueChanged_eq_referenceDecode
      { initialState with readBuffer := lit "1" } (lit "2.5\n \nGAME OVER\nx")
      (by decide)).1.trans (by decide)⟩

/-- C5: `readBuffer` starts without a line feed; for every incoming text,
`handleCharacteristicValueChanged` leaves it without a line feed if it had
none; hence it holds no line feed in any state reached from the initial one
by any sequence of events (clicks, promise callbacks, disconnections,
notifications, sends, timeouts). -/
theorem readBuffer_never_holds_line_feed :
    LF ∉ initialState.readBuffer ∧
    (∀ (s : State) (v : JSString), LF ∉ s.readBuffer →
      LF ∉ (handleCharacteristicValueChanged s v).readBuffer) ∧
    (∀ events : List Event, LF ∉ (run initialState events).readBuffer) :=
  ⟨by decide, handle_readBuffer_noLF, fun events => run_noLF events initialState (by decide)⟩

/-- C5 at the buffer `"12"` with the text `".5\n7"`, and at a connection
followed by that notification. -/
theorem readBuffer_never_holds_line_feed_witness :
    LF ∉ ({ initialState with readBuffer := lit "12" } : State).readBuffer ∧
    LF ∉ (handleCharacteristicValueChanged { initialState with readBuffer := lit "12" }
      (lit ".5\n7")).readBuffer ∧
    LF ∉ (run initialState (connectEvents { id := 1 } ++
      [Event.valueChanged { id := 1 } (lit ".5\n7")])).readBuffer :=
  ⟨by decide,
    readBuffer_never_holds_line_feed.2.1 { initialState with readBuffer := lit "12" }
      (lit ".5\n7") (by decide),
    readBuffer_never_holds_line_feed.2.2 _⟩

/-- C6, as stated, fails: after a connection, the notification `"12"` (a line
not yet terminated) and a click on Disconnect, `readBuffer` is still `"12"`,
not the empty string; and once a second connection is up, its first
notification `"7\n"` is received as `"127"`. -/
theorem disconnect_keeps_partial_line :
    (run initialState (connectEvents { id := 1 } ++
      [Event.valueChanged { id := 1 } (lit "12"), Event.disconnectClicked])).readBuffer =
        lit "12" ∧
    lit "12" ≠ [] ∧
    (run initialState (connectEvents { id := 1 } ++
      [Event.valueChanged { id := 1 } (lit "12"), Event.disconnectClicked] ++
      connectEvents { id := 2 } ++
      [Event.valueChanged { id := 2 } (lit "7\n")])).distanceText = lit "127" := by
  decide

/-- C6, amended: `disconnect()` leaves `readBuffer` as it is, for every state;
what it clears is `characteristicCache` and `deviceCache`. -/
theorem disconnect_leaves_readBuffer (s : State) :
    (disconnect s).readBuffer = s.readBuffer ∧
    (disconnect s).characteristicCache = none ∧
    (disconnect s).deviceCache = none := by
  refine ⟨disconnect_readBuffer s, ?_, rfl⟩
  show (releaseCharacteristic (disconnectDevice s)).characteristicCache = none
  unfold releaseCharacteristic
  split
  · rfl
  · assumption

/-- C7, as stated, fails: in the state after a connection, with characteristic
1 cached, the event `gattserverdisconnected` handled by `handleDisconnection`
leaves `characteristicCache` at characteristic 1, not `null`, and a
`send("w pressed")` right after it writes `"w pressed\n"` to characteristic
1. -/
theorem disconnection_keeps_characteristic :
    connectedState.characteristicCache = some { id := 1 } ∧
    (step connectedState (Event.gattServerDisconnected sumoDevice)).characteristicCache =
      some { id := 1 } ∧
    (handleDisconnection connectedState sumoDevice).characteristicCache ≠ none ∧
    (send (step connectedState (Event.gattServerDisconnected sumoDevice))
        (lit "w pressed") false).map
      (fun s1 => s1.writes.map fun w => (w.characteristic, w.data)) =
        some [({ id := 1 }, lit "w pressed\n")] := by
  decide

/-- C7, amended: `handleDisconnection` leaves `characteristicCache` and
`deviceCache` unchanged, for every state and device (the cached characteristic
is replaced only when the reconnection finds one); so with a characteristic
cached, a `send` of a non-empty message issued right after it writes its first
chunk to that characteristic. -/
theorem handleDisconnection_keeps_caches (s : State) (device : Device) :
    (handleDisconnection s device).characteristicCache = s.characteristicCache ∧
    (handleDisconnection s device).deviceCache = s.deviceCache ∧
    (∀ (ch : Characteristic) (m : JSString) (r : Bool),
      s.characteristicCache = some ch → m ≠ [] →
      ∃ s1 c0, send (handleDisconnection s device) m r = some s1 ∧
        s1.writes = s.writes ++
          [{ characteristic := ch, data := c0, value := textEncode c0, rejected := r }]) := by
  obtain ⟨h1, h2, h3⟩ := connectThenStart_caches
    (log s ([0x22] ++ device.name ++
      lit "\x22 bluetooth device disconnected, trying to reconnect...") []) device
  have hc : (handleDisconnection s device).characteristicCache = s.characteristicCache := h1
  have hd : (handleDisconnection s device).deviceCache = s.deviceCache := h2
  have hw : (handleDisconnection s device).writes = s.writes := h3
  refine ⟨hc, hd, ?_⟩
  intro ch m r hch hm
  obtain ⟨c0, rest, _, hsend⟩ :=
    send_cached (handleDisconnection s device) m r ch (hc.trans hch) hm
  exact ⟨_, c0, hsend, by rw [hw]⟩

/-- C7, amended, at the state after a connection and the message
`"w pressed"`. -/
theorem handleDisconnection_keeps_caches_witness :
    connectedState.characteristicCache = some { id := 1 } ∧ lit "w pressed" ≠ [] ∧
    ∃ s1 c0, send (handleDisconnection connectedState sumoDevice) (lit "w pressed") true =
        some s1 ∧
      s1.writes = connectedState.writes ++
        [{ characteristic := { id := 1 }, data := c0, value := textEncode c0,
           rejected := true }] :=
  ⟨by decide, by decide,
    (handleDisconnection_keeps_caches connectedState sumoDevice).2.2 { id := 1 }
      (lit "w pressed") true (by decide) (by decide)⟩

/-- C8, as stated, fails at `"GAME OVER"`: with `"12.5"` on the display,
`receive("GAME OVER")` raises the alert and leaves the display at `"12.5"`; it
does not set it to `"GAME OVER"`. -/
theorem game_over_leaves_display :
    (receive { initialState with distanceText := lit "12.5" } (lit "GAME OVER")).alerts =
      [lit "GAME OVER"] ∧
    (receive { initialState with distanceText := lit "12.5" } (lit "GAME OVER")).distanceText =
      lit "12.5" ∧
    (receive { initialState with distanceText := lit "12.5" } (lit "GAME OVER")).distanceText ≠
      lit "GAME OVER" := by
  decide

/-- C8, amended: for every message `d`, `receive(d)` appends one terminal entry
of class `in` and text `d`; when `d` is exactly `"GAME OVER"` it raises the
alert with `d` and leaves the display unchanged; for any other `d` it sets the
display to `d` and raises no alert. -/
theorem receive_dispatch (s : State) (d : JSString) :
    (receive s d).terminal = s.terminal ++ [{ className := lit "in", textContent := d }] ∧
    (d = lit "GAME OVER" →
      (receive s d).alerts = s.alerts ++ [d] ∧ (receive s d).distanceText = s.distanceText) ∧
    (d ≠ lit "GAME OVER" →
      (receive s d).distanceText = d ∧ (receive s d).alerts = s.alerts) := by
  unfold receive log
  refine ⟨?_, ?_, ?_⟩
  · split <;> rfl
  · intro h
    rw [if_pos h]
    exact ⟨rfl, rfl⟩
  · intro h
    rw [if_neg h]
    exact ⟨rfl, rfl⟩

/-- C8, amended, at `"GAME OVER"` and at `"12.5"`. -/
theorem receive_dispatch_witness :
    ((receive initialState (lit "GAME OVER")).alerts = initialState.alerts ++ [lit "GAME OVER"] ∧
      (receive initialState (lit "GAME OVER")).distanceText = initialState.distanceText) ∧
    ((receive initialState (lit "12.5")).distanceText = lit "12.5" ∧
      (receive initialState (lit "12.5")).alerts = initialState.alerts) :=
  ⟨(receive_dispatch initialState (lit "GAME OVER")).2.1 rfl,
    (receive_dispatch initialState (lit "12.5")).2.2 (by decide)⟩

/-- C9 fails in the code at the message of twenty U+2028: it has 20
characters, `message + '\n'` is 21 long, the regular expression matches only
the final line feed, so `send` writes the single chunk `"\n"` and sets no
timeout: there is no second chunk at offset 100. -/
theorem send_single_chunk_of_separators :
    (List.replicate 20 0x2028).length = 20 ∧
    (send cachedState (List.replicate 20 0x2028) false).map
      (fun s1 => (s1.writes.map WriteCall.data, s1.timers)) = some ([[LF]], []) ∧
    sentChunks cachedState (List.replicate 20 0x2028) (fun _ => false) = [[LF]] := by
  decide

/-- C10, as stated, fails: when the write of `send("w pressed")` is rejected,
the write is made and recorded as rejected, and the terminal holds the one
entry of `send` itself, exactly as when the write succeeds: the failure
appends no entry. -/
theorem write_failure_not_logged :
    (sendAndDrain cachedState (lit "w pressed") (fun _ => true)).map
      (fun s1 => (s1.writes.map WriteCall.rejected, s1.terminal)) =
        some ([true], [{ className := lit "out", textContent := lit "w pressed\n" }]) ∧
    (sendAndDrain cachedState (lit "w pressed") (fun _ => true)).map State.terminal =
      (sendAndDrain cachedState (lit "w pressed") (fun _ => false)).map State.terminal := by
  decide

/-- C10, amended: with a characteristic cached and a non-empty message, for
every choice of the writes that fail, `send` and its timeouts write every
chunk, in order (the chunks of the run where no write fails, each recorded with
its own outcome), and the terminal gets the one `out` entry of `send` and
nothing for a failed write. -/
theorem write_failures_do_not_abort (s : State) (ch : Characteristic) (m : JSString)
    (rejects : Nat → Bool) (hc : s.characteristicCache = some ch) (hm : m ≠ []) :
    ∃ s1, sendAndDrain s m rejects = some s1 ∧
      s1.terminal = s.terminal ++ [{ className := lit "out", textContent := m ++ [LF] }] ∧
      s1.writes = s.writes ++ ((sentChunks s m (fun _ => false)).enumFrom 0).map (fun p =>
        { characteristic := ch, data := p.2, value := textEncode p.2,
          rejected := rejects p.1 }) := by
  obtain ⟨s1, h1, h2, h3, _⟩ := sendAndDrain_cached s m rejects ch hc hm
  refine ⟨s1, h1, h3, ?_⟩
  rw [h2, sentChunks_cached s m (fun _ => false) ch hc hm]

/-- C10, amended, at a 45-character message whose second write fails. -/
theorem write_failures_do_not_abort_witness :
    cachedState.characteristicCache = some { id := 1 } ∧ List.replicate 45 0x61 ≠ [] ∧
    ∃ s1, sendAndDrain cachedState (List.replicate 45 0x61) (fun i => i == 1) = some s1 ∧
      s1.terminal = cachedState.terminal ++
        [{ className := lit "out", textContent := List.replicate 45 0x61 ++ [LF] }] ∧
      s1.writes = cachedState.writes ++
        ((sentChunks cachedState (List.replicate 45 0x61) (fun _ => false)).enumFrom 0).map
          (fun p => { characteristic := { id := 1 }, data := p.2, value := textEncode p.2,
                      rejected := p.1 == 1 }) :=
  ⟨rfl, by decide,
    write_failures_do_not_abort cachedState { id := 1 } (List.replicate 45 0x61)
      (fun i => i == 1) rfl (by decide)⟩

end SumoMaths
